import Mathlib

/-!
# Lilac core: shallow embedding and verification

This file embeds the core of the Lilac pixel-graph interpreter
(`src/core/node.c`, `src/core/render.c`, `src/core/vm.c`) into Lean and
proves properties of the embedded definitions.

Modelling conventions, used uniformly below:

* `raiseErr(__LINE__)` never returns in C; fallible functions are embedded
  as `Except Err _` where `Err` is the C source line number passed to
  `raiseErr`.
* C `int32_t`/`uint32_t` counters (array counts, capacities, pixel
  positions) are embedded as `Nat`: in the C sources all of these are
  non-negative and bounded by configured maxima that are at most
  `INT32_MAX / 2`, so no C arithmetic on them can wrap.  Where the C
  compares a possibly-negative expression (`c - 1` with `c >= 0`) the
  embedding computes in `Int`.
* C pointers that are checked against `NULL` are embedded as `Option _`
  (`none` = `NULL`), or as a `Nat` identity with `0` = `NULL` for opaque
  function/instance pointers that are only ever compared and stored.
* An IEEE-754 `double` is embedded by its 64-bit pattern (`CDouble`);
  `isfinite` is the usual exponent-field test.  The code only stores,
  copies and classifies doubles, so this is exact.
* The reference-counted string objects of `istr.c` are embedded by their
  string value (`String`); reference counting is memory management and
  does not affect values.
* `rfdict`, the external dictionary collaborator, is embedded as an
  association list: `rfdict_insert` refuses duplicate keys,
  `rfdict_get` returns a default for a missing key.
-/

namespace Lilac

/-- Error value: the C source line number given to `raiseErr`. -/
abbrev Err : Type := Nat

/-- The 64-bit pattern of a C `double` (`bits` is its unsigned value). -/
structure CDouble where
  bits : Nat
deriving DecidableEq, Repr

/-- C `isfinite`: the 11-bit exponent field is not all ones. -/
def CDouble.isfinite (f : CDouble) : Bool :=
  (f.bits >>> 52) % 2048 ≠ 2047

/-! ## node.c -/

/-- `struct NODE_TAG` from `node.c`: instance pointer, pixel-generation
function pointer (both opaque, embedded as `Nat` identities with `0` for
`NULL`), and the stored graph depth. -/
structure NODE where
  pInstance : Nat
  fp : Nat
  depth : Int
deriving DecidableEq, Repr

/-- `node_define` from `node.c`.  `cfgGraphDepth` is the value of
`getConfigInt(CFG_GRAPH_DEPTH)`.  Checks: `fp` non-`NULL`, `depth >= 1`,
`depth <= cfgGraphDepth`; then builds the node (allocation failure is an
out-of-memory abort, outside the model). -/
def node_define (pInstance : Nat) (fp : Nat) (depth : Int)
    (cfgGraphDepth : Int) : Except Err NODE :=
  if fp = 0 then .error 85
  else if depth < 1 then .error 88
  else if depth > cfgGraphDepth then .error 96
  else .ok { pInstance := pInstance, fp := fp, depth := depth }

/-- `node_depth` from `node.c`.  The C function checks its argument
against `NULL` and then ends without executing a `return` statement, so
on a valid handle the `int32_t` it "returns" is an indeterminate value
left in the return register; `junk` stands for that indeterminate value.
The stored `depth` field of the node is never read. -/
def node_depth (junk : Int) (pNode : Option NODE) : Except Err Int :=
  match pNode with
  | none => .error 139
  | some _ => .ok junk

/-! ## render.c -/

/-- The static state of `render.c`: the render-mode flag `m_render`
(0 or 1 in C, embedded as `Bool`) and the current offset, X, Y, width and
height variables. -/
structure RENDER_STATE where
  mRender : Bool
  mOffs : Nat
  mX : Nat
  mY : Nat
  mW : Nat
  mH : Nat
deriving DecidableEq, Repr

/-- `render_mode` from `render.c`: returns `m_render` with no checks. -/
def render_mode (st : RENDER_STATE) : Except Err Int :=
  .ok (if st.mRender then 1 else 0)

/-- `render_offset` from `render.c`: error when not in render mode,
otherwise the current offset. -/
def render_offset (st : RENDER_STATE) : Except Err Int :=
  if !st.mRender then .error 260 else .ok st.mOffs

/-- `render_X` from `render.c`. -/
def render_X (st : RENDER_STATE) : Except Err Int :=
  if !st.mRender then .error 269 else .ok st.mX

/-- `render_Y` from `render.c`. -/
def render_Y (st : RENDER_STATE) : Except Err Int :=
  if !st.mRender then .error 279 else .ok st.mY

/-- The inner pixel loop of `render_go` (`for(m_x = 0; m_x < m_w; m_x++)`
at render.c:226-234): starting from offset `offs` and column `x` on row
`y` of width `w`, returns the final offset together with the list of
`(m_offs, m_x, m_y)` triples observed at each `node_invoke` root call. -/
def renderRowLoop (offs y w x : Nat) : Nat × List (Nat × Nat × Nat) :=
  if x < w then
    let r := renderRowLoop (offs + 1) y w (x + 1)
    (r.1, (offs, x, y) :: r.2)
  else (offs, [])
termination_by w - x
decreasing_by omega

/-- The scanline loop of `render_go` (`for(m_y = 0; m_y < m_h; m_y++)` at
render.c:220-238): returns the final offset and the concatenated trace of
root invocations. -/
def renderYLoop (w h offs y : Nat) : Nat × List (Nat × Nat × Nat) :=
  if y < h then
    let row := renderRowLoop offs y w 0
    let rest := renderYLoop w h row.1 (y + 1)
    (rest.1, row.2 ++ rest.2)
  else (offs, [])
termination_by h - y

/-- `render_go` from `render.c`.  `w`/`h` are
`getConfigInt(CFG_DIM_WIDTH)`/`(CFG_DIM_HEIGHT)`; `pNodeNull` says whether
the root-node argument is `NULL`.  The registered preparation functions
and the image writer are external collaborators that do not touch the
render-module state; the image writer's scanline output is summarised by
the invocation trace.  On success the returned state reflects the
variables after the loops (`m_render` cleared at render.c:245), and the
trace lists `(m_offs, m_x, m_y)` at each root `node_invoke`. -/
def render_go (st : RENDER_STATE) (w h : Nat) (pNodeNull : Bool) :
    Except Err (RENDER_STATE × List (Nat × Nat × Nat)) :=
  if st.mRender then .error 181
  else if pNodeNull then .error 186
  else
    let r := renderYLoop w h 0 0
    .ok ({ mRender := false
           mOffs := r.1
           mX := if 0 < h then w else 0
           mY := h
           mW := w
           mH := h }, r.2)

end Lilac

/-! ## Lemmas about the render loop -/

namespace Lilac

theorem renderRowLoop_fst (offs y w x : Nat) :
    (renderRowLoop offs y w x).1 = offs + (w - x) := by
  by_cases h : x < w
  · rw [renderRowLoop]
    simp only [h, if_pos]
    rw [renderRowLoop_fst (offs + 1) y w (x + 1)]
    omega
  · rw [renderRowLoop]
    simp only [h, if_neg, if_false]
    omega
termination_by w - x
decreasing_by omega

theorem renderRowLoop_map_fst (offs y w x : Nat) :
    (renderRowLoop offs y w x).2.map (·.1) = List.range' offs (w - x) := by
  by_cases h : x < w
  · rw [renderRowLoop]
    simp only [h, if_pos, List.map_cons]
    rw [renderRowLoop_map_fst (offs + 1) y w (x + 1)]
    have hw : w - x = (w - (x + 1)) + 1 := by omega
    rw [hw, List.range'_succ]
  · rw [renderRowLoop]
    simp only [h, if_neg, if_false]
    have hw : w - x = 0 := by omega
    simp [hw]
termination_by w - x
decreasing_by omega

theorem renderRowLoop_mem (offs y w x : Nat) (hoffs : offs = y * w + x)
    (e : Nat × Nat × Nat) (he : e ∈ (renderRowLoop offs y w x).2) :
    e.1 = e.2.2 * w + e.2.1 ∧ e.2.1 < w ∧ e.2.2 = y := by
  by_cases h : x < w
  · rw [renderRowLoop] at he
    simp only [h, if_pos, List.mem_cons] at he
    rcases he with he | he
    · subst he
      exact ⟨hoffs, h, rfl⟩
    · exact renderRowLoop_mem (offs + 1) y w (x + 1) (by omega) e he
  · rw [renderRowLoop] at he
    simp [h] at he
termination_by w - x
decreasing_by omega

theorem renderYLoop_fst (w h offs y : Nat) :
    (renderYLoop w h offs y).1 = offs + (h - y) * w := by
  by_cases hy : y < h
  · rw [renderYLoop]
    simp only [hy, if_pos]
    rw [renderYLoop_fst w h _ (y + 1), renderRowLoop_fst]
    have : h - y = (h - (y + 1)) + 1 := by omega
    rw [this]
    ring_nf
    omega
  · rw [renderYLoop]
    simp only [hy, if_neg, if_false]
    have : h - y = 0 := by omega
    simp [this]
termination_by h - y
decreasing_by omega

theorem renderYLoop_map_fst (w h offs y : Nat) :
    (renderYLoop w h offs y).2.map (·.1) = List.range' offs ((h - y) * w) := by
  by_cases hy : y < h
  · rw [renderYLoop]
    simp only [hy, if_pos, List.map_append]
    rw [renderYLoop_map_fst w h _ (y + 1), renderRowLoop_map_fst,
        renderRowLoop_fst]
    have h1 : w - 0 = w := by omega
    rw [h1, List.range'_append_1]
    have h2 : h - y = (h - (y + 1)) + 1 := by omega
    rw [h2]
    ring_nf
  · rw [renderYLoop]
    simp only [hy, if_neg, if_false]
    have : h - y = 0 := by omega
    simp [this]
termination_by h - y
decreasing_by omega

theorem renderYLoop_mem (w h offs y : Nat) (hoffs : offs = y * w)
    (e : Nat × Nat × Nat) (he : e ∈ (renderYLoop w h offs y).2) :
    e.1 = e.2.2 * w + e.2.1 ∧ e.2.1 < w ∧ y ≤ e.2.2 ∧ e.2.2 < h := by
  by_cases hy : y < h
  · rw [renderYLoop] at he
    simp only [hy, if_pos, List.mem_append] at he
    rcases he with he | he
    · have := renderRowLoop_mem offs y w 0 (by omega) e he
      exact ⟨this.1, this.2.1, by omega, by omega⟩
    · have hrow : (renderRowLoop offs y w 0).1 = (y + 1) * w := by
        rw [renderRowLoop_fst]; ring_nf; omega
      have := renderYLoop_mem w h _ (y + 1) hrow e he
      exact ⟨this.1, this.2.1, by omega, this.2.2.2⟩
  · rw [renderYLoop] at he
    simp [hy] at he
termination_by h - y
decreasing_by omega

end Lilac

namespace Lilac

/-- Helper: raster-offset decomposition is unique when both column parts
are below the width. -/
theorem rowMajor_unique {w a b c d : Nat} (hb : b < w) (hd : d < w)
    (h : a * w + b = c * w + d) : a = c ∧ b = d := by
  have hw : 0 < w := by omega
  have hb' : b = (a * w + b) % w := by
    rw [Nat.add_comm, Nat.add_mul_mod_self_right, Nat.mod_eq_of_lt hb]
  have hd' : d = (c * w + d) % w := by
    rw [Nat.add_comm, Nat.add_mul_mod_self_right, Nat.mod_eq_of_lt hd]
  have hbd : b = d := by rw [hb', h, ← hd']
  refine ⟨?_, hbd⟩
  have : a * w = c * w := by omega
  exact Nat.eq_of_mul_eq_mul_right hw this

end Lilac

namespace Lilac

/-- C1: during one full render, `render_go` invokes the root node exactly
once per pixel, the sampled offsets are exactly `0, 1, …, w*h - 1` in
strictly increasing (row-major) order, and at every root invocation the
offset equals `y*w + x` for the current X and Y. -/
theorem render_go_raster_order (w h : Nat) (st st' : RENDER_STATE)
    (tr : List (Nat × Nat × Nat))
    (hok : render_go st w h false = .ok (st', tr)) :
    tr.map (·.1) = List.range (w * h) ∧
    (tr.map (·.1)).Pairwise (· < ·) ∧
    (∀ e ∈ tr, e.1 = e.2.2 * w + e.2.1) ∧
    (∀ x y, x < w → y < h →
      @List.count _ instBEqOfDecidableEq (y * w + x, x, y) tr = 1) := by
  have htr : tr = (renderYLoop w h 0 0).2 := by
    unfold render_go at hok
    by_cases hr : st.mRender
    · simp [hr] at hok
    · simp [hr] at hok
      exact hok.2.symm
  have hmap : tr.map (·.1) = List.range (w * h) := by
    rw [htr, renderYLoop_map_fst]
    have : (h - 0) * w = w * h := by rw [Nat.sub_zero, Nat.mul_comm]
    rw [this, List.range_eq_range']
  have hmem : ∀ e ∈ tr, e.1 = e.2.2 * w + e.2.1 ∧ e.2.1 < w ∧ e.2.2 < h := by
    intro e he
    rw [htr] at he
    have := renderYLoop_mem w h 0 0 (by omega) e he
    exact ⟨this.1, this.2.1, this.2.2.2⟩
  refine ⟨hmap, ?_, fun e he => (hmem e he).1, ?_⟩
  · rw [hmap]; exact List.pairwise_lt_range (w * h)
  · intro x y hx hy
    have hnodup : tr.Nodup := by
      have : (tr.map (·.1)).Nodup := by rw [hmap]; exact List.nodup_range (w * h)
      exact this.of_map _
    have hlt : y * w + x < w * h := by
      have h1 : y * w + x < (y + 1) * w := by
        have : (y + 1) * w = y * w + w := by ring
        omega
      have h2 : (y + 1) * w ≤ h * w := Nat.mul_le_mul_right w (by omega)
      have h3 : h * w = w * h := Nat.mul_comm h w
      omega
    have hin : (y * w + x : Nat) ∈ tr.map (·.1) := by
      rw [hmap]
      exact List.mem_range.mpr hlt
    rcases List.mem_map.mp hin with ⟨e, he, hfst⟩
    have hprops := hmem e he
    have huniq : e.2.2 = y ∧ e.2.1 = x := by
      have : e.2.2 * w + e.2.1 = y * w + x := by rw [← hprops.1, hfst]
      exact rowMajor_unique hprops.2.1 hx this
    have he' : e = (y * w + x, x, y) := by
      obtain ⟨hy', hx'⟩ := huniq
      obtain ⟨e1, e2, e3⟩ := e
      simp only [Prod.mk.injEq]
      exact ⟨hfst, hx', hy'⟩
    rw [← he']
    exact List.count_eq_one_of_mem hnodup he

/-- Witness for C1 at a concrete 2×2 render. -/
theorem render_go_raster_order_witness :
    ([(0, 0, 0), (1, 1, 0), (2, 0, 1), (3, 1, 1)] :
        List (Nat × Nat × Nat)).map (·.1) = List.range (2 * 2) ∧
    (([(0, 0, 0), (1, 1, 0), (2, 0, 1), (3, 1, 1)] :
        List (Nat × Nat × Nat)).map (·.1)).Pairwise (· < ·) ∧
    (∀ e ∈ ([(0, 0, 0), (1, 1, 0), (2, 0, 1), (3, 1, 1)] :
        List (Nat × Nat × Nat)), e.1 = e.2.2 * 2 + e.2.1) ∧
    (∀ x y, x < 2 → y < 2 →
      @List.count _ instBEqOfDecidableEq (y * 2 + x, x, y)
        ([(0, 0, 0), (1, 1, 0), (2, 0, 1), (3, 1, 1)] :
          List (Nat × Nat × Nat)) = 1) := by
  have hok : render_go ⟨false, 0, 0, 0, 0, 0⟩ 2 2 false =
      .ok (⟨false, 4, 2, 2, 2, 2⟩, [(0, 0, 0), (1, 1, 0), (2, 0, 1), (3, 1, 1)]) := by
    simp [render_go, renderYLoop, renderRowLoop]
  exact render_go_raster_order 2 2 _ _ _ hok

end Lilac

namespace Lilac

/-- C4 counterexample: a first complete `render_go` pass
(Idle → Preparing → Rendering → Idle) succeeds and clears render mode, and
a second invocation of `render_go` afterwards also succeeds — it is not an
error. -/
theorem render_go_second_call_succeeds :
    render_go ⟨false, 0, 0, 0, 0, 0⟩ 1 1 false =
      .ok (⟨false, 1, 1, 1, 1, 1⟩, [(0, 0, 0)]) ∧
    render_go ⟨false, 1, 1, 1, 1, 1⟩ 1 1 false =
      .ok (⟨false, 1, 1, 1, 1, 1⟩, [(0, 0, 0)]) := by
  constructor <;> simp [render_go, renderYLoop, renderRowLoop]

/-- C4 amended: the render loop is not reentrant in the sense that
invoking `render_go` while render mode is active is an error; a completed
pass returns the module to non-render mode, and a second invocation after
a completed pass is accepted and performs another full render rather than
erroring. -/
theorem render_go_reentrancy (st : RENDER_STATE) (w h : Nat) :
    (st.mRender = true → ∀ r, render_go st w h false ≠ .ok r) ∧
    (∀ st' tr, render_go st w h false = .ok (st', tr) →
      st'.mRender = false ∧ ∃ r, render_go st' w h false = .ok r) := by
  constructor
  · intro hr r
    simp [render_go, hr]
  · intro st' tr hok
    unfold render_go at hok
    by_cases hr : st.mRender
    · simp [hr] at hok
    · simp [hr] at hok
      have hst' : st'.mRender = false := by rw [← hok.1]
      refine ⟨hst', ⟨({ mRender := false
                        mOffs := (renderYLoop w h 0 0).1
                        mX := if 0 < h then w else 0
                        mY := h, mW := w, mH := h },
                      (renderYLoop w h 0 0).2), ?_⟩⟩
      simp [render_go, hst']

/-- Witness for the amended C4 at concrete states. -/
theorem render_go_reentrancy_witness :
    (∀ r, render_go ⟨true, 0, 0, 0, 0, 0⟩ 1 1 false ≠ .ok r) ∧
    ((⟨false, 1, 1, 1, 1, 1⟩ : RENDER_STATE).mRender = false ∧
      ∃ r, render_go ⟨false, 1, 1, 1, 1, 1⟩ 1 1 false = .ok r) := by
  refine ⟨(render_go_reentrancy ⟨true, 0, 0, 0, 0, 0⟩ 1 1).1 rfl, ?_⟩
  exact (render_go_reentrancy ⟨false, 0, 0, 0, 0, 0⟩ 1 1).2
    ⟨false, 1, 1, 1, 1, 1⟩ [(0, 0, 0)]
    (by simp [render_go, renderYLoop, renderRowLoop])

/-- C10: `render_mode` is total — it returns `0` exactly when render mode
is off and a nonzero value exactly when render mode is on, never an
error — while `render_offset`, `render_X` and `render_Y` raise a fatal
error exactly when called outside render mode. -/
theorem render_queries_totality (st : RENDER_STATE) :
    (∃ k, render_mode st = .ok k) ∧
    (render_mode st = .ok 0 ↔ st.mRender = false) ∧
    (∀ k, render_mode st = .ok k → (k ≠ 0 ↔ st.mRender = true)) ∧
    ((∃ e, render_offset st = .error e) ↔ st.mRender = false) ∧
    ((∃ e, render_X st = .error e) ↔ st.mRender = false) ∧
    ((∃ e, render_Y st = .error e) ↔ st.mRender = false) := by
  cases hst : st.mRender <;>
    simp [render_mode, render_offset, render_X, render_Y, hst]

/-- Witness for C10 at concrete render states. -/
theorem render_queries_totality_witness :
    ((∃ k, render_mode ⟨false, 0, 0, 0, 0, 0⟩ = .ok k) ∧
      (render_mode ⟨false, 0, 0, 0, 0, 0⟩ = .ok 0 ↔
        (⟨false, 0, 0, 0, 0, 0⟩ : RENDER_STATE).mRender = false)) ∧
    (∃ e, render_offset ⟨false, 0, 0, 0, 0, 0⟩ = .error e) ∧
    (∃ k, render_mode ⟨true, 3, 1, 1, 2, 2⟩ = .ok k) := by
  refine ⟨⟨(render_queries_totality ⟨false, 0, 0, 0, 0, 0⟩).1,
    (render_queries_totality ⟨false, 0, 0, 0, 0, 0⟩).2.1⟩, ?_, ?_⟩
  · exact ((render_queries_totality ⟨false, 0, 0, 0, 0, 0⟩).2.2.2.1).mpr rfl
  · exact (render_queries_totality ⟨true, 3, 1, 1, 2, 2⟩).1

/-- C7: `node_define` succeeds exactly for `1 ≤ depth ≤ cfgGraphDepth`
(storing that depth in the node) and fails with a fatal error exactly for
`depth < 1` or `depth > cfgGraphDepth`; only the single depth integer is
examined. -/
theorem node_define_depth_range (pInstance fp : Nat) (depth maxDepth : Int)
    (hfp : fp ≠ 0) :
    (node_define pInstance fp depth maxDepth = .ok ⟨pInstance, fp, depth⟩ ↔
      1 ≤ depth ∧ depth ≤ maxDepth) ∧
    ((∃ e, node_define pInstance fp depth maxDepth = .error e) ↔
      (depth < 1 ∨ depth > maxDepth)) := by
  unfold node_define
  split_ifs with h1 h2 h3 <;> simp_all

/-- Witness for C7: depth 3 with limit 10 builds the node; depth 0 and
depth 11 fail. -/
theorem node_define_depth_range_witness :
    (node_define 7 1 3 10 = .ok ⟨7, 1, 3⟩ ↔ 1 ≤ (3 : Int) ∧ (3 : Int) ≤ 10) ∧
    ((∃ e, node_define 7 1 3 10 = .error e) ↔
      ((3 : Int) < 1 ∨ (3 : Int) > 10)) :=
  node_define_depth_range 7 1 3 10 (by decide)

/-- C3 (code bug): `node_depth` does not return the stored depth.  On a
node built by `node_define` with depth 5, the C function's only non-error
path falls off the end of the function without a `return` statement, so
the result is an indeterminate value (modelled by the `junk` argument,
here 0) rather than the stored 5. -/
theorem node_depth_falls_through :
    ∃ n : NODE, node_define 7 1 5 10 = .ok n ∧ n.depth = 5 ∧
      node_depth 0 (some n) = .ok 0 ∧ (0 : Int) ≠ 5 := by
  exact ⟨⟨7, 1, 5⟩, rfl, rfl, rfl, by decide⟩

end Lilac

namespace Lilac

/-! ## vm.c — constants -/

def VM_TYPE_UNDEF : Nat := 0

def VM_TYPE_FLOAT : Nat := 1

def VM_TYPE_COLOR : Nat := 2

def VM_TYPE_STRING : Nat := 3

def VM_TYPE_NODE : Nat := 4

def MAX_OPERATION_COUNT : Nat := 16384

def MAX_GROUP_DEPTH : Nat := 16384

def VBLOCK_INITIAL : Nat := 16

def IBLOCK_INITIAL : Nat := 16

def OBLOCK_INITIAL : Nat := 16

def INT32_MAX : Nat := 2147483647

/-! ## vm.c — VARIANT

The C `VARIANT` is a tag plus a union; `variant_init`/`variant_reset`/
`variant_copy`/the typed setters and getters manage string reference
counts, which is memory management with value semantics, so the variant
is embedded as a sum type and copying is plain value copying. -/

/-- The `VARIANT` structure of vm.c as a tagged value. -/
inductive VARIANT where
  | undef
  | float (f : CDouble)
  | color (col : Nat)
  | str (s : String)
  | node (pn : NODE)
deriving DecidableEq, Repr

/-- `variant_type`: the `VM_TYPE` constant stored in the tag. -/
def VARIANT.vtype : VARIANT → Nat
  | .undef => VM_TYPE_UNDEF
  | .float _ => VM_TYPE_FLOAT
  | .color _ => VM_TYPE_COLOR
  | .str _ => VM_TYPE_STRING
  | .node _ => VM_TYPE_NODE

/-! ## vm.c — VBLOCK (growable variant array) -/

/-- The `VBLOCK` structure: backing array (length `vcap`, entries at or
beyond `vcount` hold `undef`), current capacity, maximum capacity, and
current length. -/
structure VBLOCK where
  pBank : List VARIANT
  vcap : Nat
  vmax : Nat
  vcount : Nat
deriving DecidableEq, Repr

/-- `vblock_alloc`: requires `1 <= max_cap <= INT32_MAX/2`; the initial
capacity is the minimum of `max_cap` and `VBLOCK_INITIAL`, the bank is
allocated at that capacity with all variants initialised to `undef`. -/
def vblock_alloc (max_cap : Nat) : Except Err VBLOCK :=
  if max_cap < 1 ∨ max_cap > INT32_MAX / 2 then .error 744
  else
    let vcap := if max_cap < VBLOCK_INITIAL then max_cap else VBLOCK_INITIAL
    .ok { pBank := List.replicate vcap .undef
          vcap := vcap
          vmax := max_cap
          vcount := 0 }

/-- `vblock_count`. -/
def vblock_count (pb : VBLOCK) : Nat := pb.vcount

/-- `vblock_append`: returns the index of the new element and the updated
block, or `-1` (block unchanged) when the array is full to maximum
capacity.  When full but below maximum, the capacity grows to
`min(2*vcap, vmax)` (`realloc` preserves the old entries; the new ones are
initialised to `undef`). -/
def vblock_append (pb : VBLOCK) : Int × VBLOCK :=
  if pb.vcount ≥ pb.vcap then
    if pb.vcap ≥ pb.vmax then (-1, pb)
    else
      let oc := pb.vcap
      let nc0 := pb.vcap * 2
      let nc := if nc0 > pb.vmax then pb.vmax else nc0
      let pb' : VBLOCK :=
        { pb with pBank := pb.pBank ++ List.replicate (nc - oc) .undef
                  vcap := nc }
      ((pb'.vcount : Int), { pb' with vcount := pb'.vcount + 1 })
  else ((pb.vcount : Int), { pb with vcount := pb.vcount + 1 })

/-- `vblock_reduce`: error when already empty; otherwise resets the last
live entry to `undef` and decrements the length. -/
def vblock_reduce (pb : VBLOCK) : Except Err VBLOCK :=
  if pb.vcount < 1 then .error 889
  else .ok { pb with pBank := pb.pBank.set (pb.vcount - 1) .undef
                     vcount := pb.vcount - 1 }

/-- `vblock_set`: bounds check `0 <= i < vcount`, then copy the value into
the bank. -/
def vblock_set (pb : VBLOCK) (i : Int) (v : VARIANT) : Except Err VBLOCK :=
  if i < 0 ∨ i ≥ (pb.vcount : Int) then .error 921
  else .ok { pb with pBank := pb.pBank.set i.toNat v }

/-- `vblock_get`: bounds check `0 <= i < vcount`, then copy the value out
of the bank. -/
def vblock_get (pb : VBLOCK) (i : Int) : Except Err VARIANT :=
  if i < 0 ∨ i ≥ (pb.vcount : Int) then .error 951
  else .ok (pb.pBank.getD i.toNat .undef)

/-! ## vm.c — IBLOCK (growable integer array) -/

/-- The `IBLOCK` structure: backing `uint32_t` array (length `icap`,
entries at or beyond `icount` hold 0), capacity, maximum, length. -/
structure IBLOCK where
  pBank : List Nat
  icap : Nat
  imax : Nat
  icount : Nat
deriving DecidableEq, Repr

/-- `iblock_alloc`: as `vblock_alloc`, with `IBLOCK_INITIAL` and a
zero-filled bank. -/
def iblock_alloc (max_cap : Nat) : Except Err IBLOCK :=
  if max_cap < 1 ∨ max_cap > INT32_MAX / 2 then .error 983
  else
    let icap := if max_cap < IBLOCK_INITIAL then max_cap else IBLOCK_INITIAL
    .ok { pBank := List.replicate icap 0
          icap := icap
          imax := max_cap
          icount := 0 }

/-- `iblock_count`. -/
def iblock_count (pb : IBLOCK) : Nat := pb.icount

/-- `iblock_append`: as `vblock_append`; the new element is zero. -/
def iblock_append (pb : IBLOCK) : Int × IBLOCK :=
  if pb.icount ≥ pb.icap then
    if pb.icap ≥ pb.imax then (-1, pb)
    else
      let oc := pb.icap
      let nc0 := pb.icap * 2
      let nc := if nc0 > pb.imax then pb.imax else nc0
      let pb' : IBLOCK :=
        { pb with pBank := pb.pBank ++ List.replicate (nc - oc) 0
                  icap := nc }
      ((pb'.icount : Int), { pb' with icount := pb'.icount + 1 })
  else ((pb.icount : Int), { pb with icount := pb.icount + 1 })

/-- `iblock_reduce`: error when already empty; otherwise zeroes the last
live entry and decrements the length. -/
def iblock_reduce (pb : IBLOCK) : Except Err IBLOCK :=
  if pb.icount < 1 then .error 1122
  else .ok { pb with pBank := pb.pBank.set (pb.icount - 1) 0
                     icount := pb.icount - 1 }

/-- `iblock_set`: bounds check `0 <= i < icount`, then store. -/
def iblock_set (pb : IBLOCK) (i : Int) (v : Nat) : Except Err IBLOCK :=
  if i < 0 ∨ i ≥ (pb.icount : Int) then .error 1151
  else .ok { pb with pBank := pb.pBank.set i.toNat v }

/-- `iblock_get`: bounds check `0 <= i < icount`, then load. -/
def iblock_get (pb : IBLOCK) (i : Int) : Except Err Nat :=
  if i < 0 ∨ i ≥ (pb.icount : Int) then .error 1181
  else .ok (pb.pBank.getD i.toNat 0)

/-! ## vm.c — OBLOCK (growable operation-pointer array) -/

/-- The `OBLOCK` structure; operation function pointers are opaque and
embedded as `Nat` identities, `0` meaning `NULL`. -/
structure OBLOCK where
  pBank : List Nat
  ocap : Nat
  omax : Nat
  ocount : Nat
deriving DecidableEq, Repr

/-- `oblock_alloc`: as `vblock_alloc`, with `OBLOCK_INITIAL` and a
`NULL`-filled bank. -/
def oblock_alloc (max_cap : Nat) : Except Err OBLOCK :=
  if max_cap < 1 ∨ max_cap > INT32_MAX / 2 then .error 1212
  else
    let ocap := if max_cap < OBLOCK_INITIAL then max_cap else OBLOCK_INITIAL
    .ok { pBank := List.replicate ocap 0
          ocap := ocap
          omax := max_cap
          ocount := 0 }

/-- `oblock_append`: fatal error on a `NULL` function pointer; `-1`
(block unchanged) when full to maximum; otherwise grows as the other
blocks do, stores `fp` at the end and returns its index. -/
def oblock_append (pb : OBLOCK) (fp : Nat) : Except Err (Int × OBLOCK) :=
  if fp = 0 then .error 1266
  else if pb.ocount ≥ pb.ocap then
    if pb.ocap ≥ pb.omax then .ok (-1, pb)
    else
      let oc := pb.ocap
      let nc0 := pb.ocap * 2
      let nc := if nc0 > pb.omax then pb.omax else nc0
      let pb' : OBLOCK :=
        { pb with pBank := (pb.pBank ++ List.replicate (nc - oc) 0).set pb.ocount fp
                  ocap := nc
                  ocount := pb.ocount + 1 }
      .ok ((pb.ocount : Int), pb')
  else
    .ok ((pb.ocount : Int),
      { pb with pBank := pb.pBank.set pb.ocount fp, ocount := pb.ocount + 1 })

end Lilac

namespace Lilac

/-! ## vm.c — rfdict collaborator and name validation -/

/-- `rfdict_get`: look up a key, returning `dfl` when absent.  The
external `rfdict` dictionary is embedded as an association list. -/
def rfdict_get (d : List (String × Nat)) (key : String) (dfl : Int) : Int :=
  match d.find? (fun p => p.1 = key) with
  | some p => (p.2 : Int)
  | none => dfl

/-- `rfdict_insert`: fails (returns `none`) when the key is already
present, otherwise adds the mapping. -/
def rfdict_insert (d : List (String × Nat)) (key : String) (v : Nat) :
    Option (List (String × Nat)) :=
  if (d.find? (fun p => p.1 = key)).isSome then none
  else some (d ++ [(key, v)])

/-- US-ASCII `A`–`Z` as compared in `validName`. -/
def isAsciiUpper (c : Char) : Bool := 65 ≤ c.toNat && c.toNat ≤ 90

/-- US-ASCII `a`–`z` as compared in `validName`. -/
def isAsciiLower (c : Char) : Bool := 97 ≤ c.toNat && c.toNat ≤ 122

/-- US-ASCII `0`–`9` as compared in `validName`. -/
def isAsciiDigit (c : Char) : Bool := 48 ≤ c.toNat && c.toNat ≤ 57

/-- `validName` from vm.c: length in `[1, 31]`, first character an ASCII
letter, remaining characters ASCII alphanumerics or underscores. -/
def validName (pstr : String) : Bool :=
  match pstr.toList with
  | [] => false
  | c :: rest =>
    if (c :: rest).length > 31 then false
    else if !(isAsciiUpper c || isAsciiLower c) then false
    else rest.all fun d =>
      isAsciiUpper d || isAsciiLower d || isAsciiDigit d || d == '_'

/-! ## vm.c — interpreter state and public stack API -/

/-- The static interpreter state of vm.c: running flag `m_run`, the
interpreter stack `m_st`, the grouping stack `m_gs`, and the namespace
(`m_ns_dict`, `m_ns_flag`, `m_ns`).  The one-shot `m_called` flag guards
only `vm_register`/`vm_run` entry and is outside this state. -/
structure VMState where
  mRun : Bool
  mSt : VBLOCK
  mGs : IBLOCK
  mNsDict : List (String × Nat)
  mNsFlag : IBLOCK
  mNs : VBLOCK
deriving DecidableEq, Repr

/-- `vm_type`: error when not running; otherwise the type of the value on
top of the visible stack, `VM_TYPE_UNDEF` when the visible region (total
height minus the hide count on top of the grouping stack) is empty.  A
stored `undef` variant on top is a fatal error.  The C `iblock_get`/
`vblock_get` calls here are made with in-range indices, so they are
embedded as direct bank reads. -/
def vm_type (st : VMState) : Except Err Nat :=
  if !st.mRun then .error 2064
  else
    let hide := if iblock_count st.mGs > 0 then
        st.mGs.pBank.getD (st.mGs.icount - 1) 0
      else 0
    if vblock_count st.mSt > hide then
      let v := st.mSt.pBank.getD (st.mSt.vcount - 1) .undef
      if v.vtype = VM_TYPE_UNDEF then .error 2086
      else .ok v.vtype
    else .ok VM_TYPE_UNDEF

/-- `vm_pop_f`: requires a visible float on top; returns it and the state
with the stack reduced. -/
def vm_pop_f (st : VMState) : Except Err (CDouble × VMState) := do
  let t ← vm_type st
  if t ≠ VM_TYPE_FLOAT then throw 2110
  let v ← vblock_get st.mSt ((vblock_count st.mSt : Int) - 1)
  let b ← vblock_reduce st.mSt
  match v with
  | .float f => pure (f, { st with mSt := b })
  | _ => throw 548

/-- `vm_pop_c`. -/
def vm_pop_c (st : VMState) : Except Err (Nat × VMState) := do
  let t ← vm_type st
  if t ≠ VM_TYPE_COLOR then throw 2140
  let v ← vblock_get st.mSt ((vblock_count st.mSt : Int) - 1)
  let b ← vblock_reduce st.mSt
  match v with
  | .color c => pure (c, { st with mSt := b })
  | _ => throw 572

/-- `vm_pop_s`. -/
def vm_pop_s (st : VMState) : Except Err (String × VMState) := do
  let t ← vm_type st
  if t ≠ VM_TYPE_STRING then throw 2174
  let v ← vblock_get st.mSt ((vblock_count st.mSt : Int) - 1)
  let b ← vblock_reduce st.mSt
  match v with
  | .str s => pure (s, { st with mSt := b })
  | _ => throw 597

/-- `vm_pop_n`. -/
def vm_pop_n (st : VMState) : Except Err (NODE × VMState) := do
  let t ← vm_type st
  if t ≠ VM_TYPE_NODE then throw 2201
  let v ← vblock_get st.mSt ((vblock_count st.mSt : Int) - 1)
  let b ← vblock_reduce st.mSt
  match v with
  | .node n => pure (n, { st with mSt := b })
  | _ => throw 621

/-- `vm_push_f`: requires running mode and a finite value; stack overflow
(append returning `-1`) is a fatal error. -/
def vm_push_f (st : VMState) (f : CDouble) : Except Err VMState := do
  if !st.mRun then throw 2231
  if !f.isfinite then throw 2236
  let (i, b) := vblock_append st.mSt
  if i < 0 then throw 2243
  let b2 ← vblock_set b i (.float f)
  pure { st with mSt := b2 }

/-- `vm_push_c`. -/
def vm_push_c (st : VMState) (col : Nat) : Except Err VMState := do
  if !st.mRun then throw 2267
  let (i, b) := vblock_append st.mSt
  if i < 0 then throw 2274
  let b2 ← vblock_set b i (.color col)
  pure { st with mSt := b2 }

/-- `vm_push_s`: the `ISTR` argument may not be `NULL`. -/
def vm_push_s (st : VMState) (ps : Option String) : Except Err VMState := do
  if !st.mRun then throw 2298
  match ps with
  | none => throw 2303
  | some s =>
    let (i, b) := vblock_append st.mSt
    if i < 0 then throw 2310
    let b2 ← vblock_set b i (.str s)
    pure { st with mSt := b2 }

/-- `vm_push_n`: the node argument may not be `NULL`. -/
def vm_push_n (st : VMState) (pn : Option NODE) : Except Err VMState := do
  if !st.mRun then throw 2334
  match pn with
  | none => throw 2339
  | some n =>
    let (i, b) := vblock_append st.mSt
    if i < 0 then throw 2346
    let b2 ← vblock_set b i (.node n)
    pure { st with mSt := b2 }

/-- `vm_dup`: requires a visible value on top; pushes a copy. -/
def vm_dup (st : VMState) : Except Err VMState := do
  let t ← vm_type st
  if t = VM_TYPE_UNDEF then throw 2370
  let v ← vblock_get st.mSt ((vblock_count st.mSt : Int) - 1)
  let (i, b) := vblock_append st.mSt
  if i < 0 then throw 2380
  let b2 ← vblock_set b i v
  pure { st with mSt := b2 }

/-- `vm_pop`: requires a visible value on top (error when the stack is
empty or everything is hidden by the current group); reduces the stack. -/
def vm_pop (st : VMState) : Except Err VMState := do
  let t ← vm_type st
  if t = VM_TYPE_UNDEF then throw 2397
  let b ← vblock_reduce st.mSt
  pure { st with mSt := b }

end Lilac

namespace Lilac

/-! ## vm.c — entity handlers -/

/-- `handlBeginGroup`: pushes the current total stack height (including
entries hidden by outer groups) onto the grouping stack; overflow of the
grouping stack is a fatal error. -/
def handlBeginGroup (st : VMState) : Except Err VMState := do
  if !st.mRun then throw 1728
  let c := vblock_count st.mSt
  let (i, gs) := iblock_append st.mGs
  if i < 0 then throw 1740
  let gs2 ← iblock_set gs i c
  pure { st with mGs := gs2 }

/-- `handleEndGroup`: reads and pops the top of the grouping stack, then
requires the current total stack height to be exactly one more than the
popped value (the comparison `c - 1 != s` is on C `int32_t`, embedded in
`Int`). -/
def handleEndGroup (st : VMState) : Except Err VMState := do
  if !st.mRun then throw 1757
  let c := vblock_count st.mSt
  let s ← iblock_get st.mGs ((iblock_count st.mGs : Int) - 1)
  let gs ← iblock_reduce st.mGs
  if (c : Int) - 1 ≠ (s : Int) then throw 1773
  pure { st with mGs := gs }

/-- The fresh-flag-word step of `handleDeclare` (vm.c:1536-1544): when
the new namespace index `iN` is a multiple of 32, append another block of
32 flags and initialise it to zero. -/
def declare_flags_fresh (flags : IBLOCK) (iN : Nat) : Except Err IBLOCK :=
  if iN % 32 = 0 then
    match iblock_append flags with
    | (j, f1) => if j < 0 then .error 1541 else iblock_set f1 j 0
  else .ok flags

/-- The constant-flag step of `handleDeclare` (vm.c:1546-1556): when
declaring a constant, OR the bit `iN % 32` into flag word `iN / 32`. -/
def declare_flags_const (fl1 : IBLOCK) (iN : Nat) (isConst : Bool) :
    Except Err IBLOCK :=
  if isConst then
    match iblock_get fl1 ((iN / 32 : Nat) : Int) with
    | .error e => .error e
    | .ok cv => iblock_set fl1 ((iN / 32 : Nat) : Int)
        (cv ||| ((1 : Nat) <<< (iN % 32)))
  else .ok fl1

/-- `handleDeclare` (entities `SNENTITY_VARIABLE`/`SNENTITY_CONSTANT`,
`isConst` telling which): validates the name, requires a visible initial
value, appends a namespace slot, extends and updates the flag bitset via
the two steps above, maps the name (fatal error on redefinition), then
pops the initial value into the slot. -/
def handleDeclare (st : VMState) (name : String) (isConst : Bool) :
    Except Err VMState := do
  if !validName name then throw 1516
  let t ← vm_type st
  if t = VM_TYPE_UNDEF then throw 1524
  let (i, ns1) := vblock_append st.mNs
  if i < 0 then throw 1533
  let fl1 ← declare_flags_fresh st.mNsFlag i.toNat
  let fl2 ← declare_flags_const fl1 i.toNat isConst
  let d ←
    match rfdict_insert st.mNsDict name i.toNat with
    | none => throw 1562
    | some d => pure d
  let v ← vblock_get st.mSt ((vblock_count st.mSt : Int) - 1)
  let st1 := { st with mNs := ns1, mNsFlag := fl2, mNsDict := d }
  let st2 ← vm_pop st1
  let ns2 ← vblock_set st2.mNs i v
  pure { st2 with mNs := ns2 }

/-- `handleAssign`: requires running mode, a valid name, a visible value,
a declared name and a clear constant flag; then pops the value into the
slot. -/
def handleAssign (st : VMState) (name : String) : Except Err VMState := do
  if !st.mRun then throw 1596
  if !validName name then throw 1612
  let t ← vm_type st
  if t = VM_TYPE_UNDEF then throw 1620
  let i := rfdict_get st.mNsDict name (-1)
  if i < 0 then throw 1629
  let offs := i.toNat / 32
  let flag := (1 : Nat) <<< (i.toNat % 32)
  let cv ← iblock_get st.mNsFlag (offs : Int)
  if cv &&& flag ≠ 0 then throw 1642
  let v ← vblock_get st.mSt ((vblock_count st.mSt : Int) - 1)
  let st1 ← vm_pop st
  let ns2 ← vblock_set st1.mNs i v
  pure { st1 with mNs := ns2 }

/-- `handleGet`: requires running mode, a valid, declared name; pushes a
copy of the stored value (stack overflow is a fatal error). -/
def handleGet (st : VMState) (name : String) : Except Err VMState := do
  if !st.mRun then throw 1673
  if !validName name then throw 1690
  let i := rfdict_get st.mNsDict name (-1)
  if i < 0 then throw 1698
  let v ← vblock_get st.mNs i
  let (j, b) := vblock_append st.mSt
  if j < 0 then throw 1708
  let b2 ← vblock_set b j v
  pure { st with mSt := b2 }

/-- The end-of-input tail of `vm_run` (vm.c:2024-2047): after the entity
loop, require exactly one value on the interpreter stack, require it to be
a (visible) node, pop it, leave running mode and return it. -/
def vm_run_finish (st : VMState) : Except Err (NODE × VMState) := do
  if vblock_count st.mSt ≠ 1 then throw 2028
  let t ← vm_type st
  if t ≠ VM_TYPE_NODE then throw 2037
  let (n, st1) ← vm_pop_n st
  pure (n, { st1 with mRun := false })

/-- One interpreter step during a run: the namespace/grouping entity
handlers above, or one call of the operand-stack API that `handleString`,
`handleNumeric`, `handleArray` and the registered operation callbacks
(`handleOperation`) use to touch the interpreter state. -/
inductive VMOp where
  | declare (name : String) (isConst : Bool)
  | assign (name : String)
  | get (name : String)
  | beginGroup
  | endGroup
  | pushF (f : CDouble)
  | pushC (col : Nat)
  | pushS (ps : Option String)
  | pushN (pn : Option NODE)
  | dup
  | pop

/-- Apply one interpreter step. -/
def applyOp (st : VMState) : VMOp → Except Err VMState
  | .declare name isConst => handleDeclare st name isConst
  | .assign name => handleAssign st name
  | .get name => handleGet st name
  | .beginGroup => handlBeginGroup st
  | .endGroup => handleEndGroup st
  | .pushF f => vm_push_f st f
  | .pushC col => vm_push_c st col
  | .pushS ps => vm_push_s st ps
  | .pushN pn => vm_push_n st pn
  | .dup => vm_dup st
  | .pop => vm_pop st

/-- Run a sequence of interpreter steps; any fatal error aborts the run. -/
def runOps (st : VMState) : List VMOp → Except Err VMState
  | [] => pure st
  | op :: rest => do runOps (← applyOp st op) rest

end Lilac

namespace Lilac

/-! ## List and bit helpers -/

theorem getD_set_ne {α : Type} (l : List α) (i j : Nat) (a d : α)
    (h : i ≠ j) : (l.set i a).getD j d = l.getD j d := by
  simp [List.getD_eq_getElem?_getD, List.getElem?_set_ne h]

theorem getD_set_self {α : Type} (l : List α) (i : Nat) (a d : α)
    (h : i < l.length) : (l.set i a).getD i d = a := by
  simp [List.getD_eq_getElem?_getD, List.getElem?_set_self, h]

theorem getD_append_dflt {α : Type} (l : List α) (n k : Nat) (d : α) :
    (l ++ List.replicate n d).getD k d = l.getD k d := by
  rcases Nat.lt_or_ge k l.length with h | h
  · simp [List.getD_eq_getElem?_getD, List.getElem?_append, h]
  · simp [List.getD_eq_getElem?_getD, List.getElem?_append_right h,
      List.getElem?_replicate, List.getElem?_eq_none h]
    split <;> simp

theorem and_shl_ne_zero_iff (a k : Nat) :
    a &&& (1 <<< k) ≠ 0 ↔ a.testBit k := by
  rw [Nat.shiftLeft_eq, one_mul, Nat.and_two_pow]
  rcases h : a.testBit k <;> simp [h, Nat.pow_pos]

/-! ## Well-formedness of the growable arrays

These mirror the documented structure invariants of vm.c: capacity
positive and at most the maximum, length at most the capacity, backing
array exactly as long as the capacity. -/

/-- Invariant of a `VBLOCK`. -/
def VBLOCK.Wf (pb : VBLOCK) : Prop :=
  1 ≤ pb.vcap ∧ pb.pBank.length = pb.vcap ∧ pb.vcount ≤ pb.vcap ∧
    pb.vcap ≤ pb.vmax

/-- Invariant of an `IBLOCK`. -/
def IBLOCK.Wf (pb : IBLOCK) : Prop :=
  1 ≤ pb.icap ∧ pb.pBank.length = pb.icap ∧ pb.icount ≤ pb.icap ∧
    pb.icap ≤ pb.imax

/-- Invariant of an `OBLOCK`. -/
def OBLOCK.Wf (pb : OBLOCK) : Prop :=
  1 ≤ pb.ocap ∧ pb.pBank.length = pb.ocap ∧ pb.ocount ≤ pb.ocap ∧
    pb.ocap ≤ pb.omax

theorem vblock_alloc_spec (max_cap : Nat) (pb : VBLOCK)
    (h : vblock_alloc max_cap = .ok pb) :
    pb.Wf ∧ pb.vcap = min VBLOCK_INITIAL max_cap ∧ pb.vcount = 0 ∧
      pb.vmax = max_cap := by
  unfold vblock_alloc at h
  split at h
  · exact absurd h (by simp)
  · rename_i hcond
    rw [Except.ok.injEq] at h
    subst h
    push_neg at hcond
    refine ⟨⟨?_, ?_, ?_, ?_⟩, ?_, rfl, rfl⟩ <;>
      simp only [VBLOCK.Wf, VBLOCK_INITIAL, List.length_replicate] <;>
      first
      | rfl
      | simp
      | (split <;> omega)

theorem vblock_append_full (pb : VBLOCK) (h1 : pb.vcount ≥ pb.vcap)
    (h2 : pb.vcap ≥ pb.vmax) : vblock_append pb = (-1, pb) := by
  simp [vblock_append, h1, h2]

theorem vblock_append_ok (pb : VBLOCK)
    (hbank : pb.pBank.length = pb.vcap) (hcap : 1 ≤ pb.vcap)
    (h : ¬(pb.vcount ≥ pb.vcap ∧ pb.vcap ≥ pb.vmax)) :
    (vblock_append pb).1 = (pb.vcount : Int) ∧
    (vblock_append pb).2.vcount = pb.vcount + 1 ∧
    (vblock_append pb).2.vmax = pb.vmax ∧
    (vblock_append pb).2.vcap =
      (if pb.vcount ≥ pb.vcap then min (2 * pb.vcap) pb.vmax
       else pb.vcap) ∧
    (vblock_append pb).2.pBank.length = (vblock_append pb).2.vcap ∧
    (∀ k, (vblock_append pb).2.pBank.getD k .undef =
      pb.pBank.getD k .undef) := by
  by_cases h1 : pb.vcount ≥ pb.vcap
  · have h2 : ¬(pb.vcap ≥ pb.vmax) := fun hc => h ⟨h1, hc⟩
    have key : vblock_append pb =
        ((pb.vcount : Int),
         { pb with
             pBank := pb.pBank ++ List.replicate
               ((if pb.vcap * 2 > pb.vmax then pb.vmax else pb.vcap * 2) -
                 pb.vcap) .undef
             vcap := if pb.vcap * 2 > pb.vmax then pb.vmax else pb.vcap * 2
             vcount := pb.vcount + 1 }) := by
      simp [vblock_append, h1, h2]
    rw [key]
    refine ⟨rfl, rfl, rfl, ?_, ?_, ?_⟩
    · simp only [if_pos h1]
      split <;> omega
    · simp only [List.length_append, List.length_replicate, hbank]
      split <;> omega
    · intro k
      exact getD_append_dflt pb.pBank _ k .undef
  · have key : vblock_append pb =
        ((pb.vcount : Int), { pb with vcount := pb.vcount + 1 }) := by
      simp [vblock_append, h1]
    rw [key]
    exact ⟨rfl, rfl, rfl, by simp [h1], hbank, fun k => rfl⟩

theorem vblock_append_wf (pb : VBLOCK) (hwf : pb.Wf) :
    (vblock_append pb).2.Wf := by
  obtain ⟨hc1, hbank, hcnt, hmax⟩ := hwf
  by_cases h : pb.vcount ≥ pb.vcap ∧ pb.vcap ≥ pb.vmax
  · rw [vblock_append_full pb h.1 h.2]
    exact ⟨hc1, hbank, hcnt, hmax⟩
  · obtain ⟨_, h2, h3, h4, h5, _⟩ := vblock_append_ok pb hbank hc1 h
    refine ⟨?_, h5, ?_, ?_⟩
    · rw [h4]; split <;> omega
    · rw [h2, h4]; split <;> omega
    · rw [h4, h3]; split <;> omega

theorem vblock_reduce_wf (pb pb' : VBLOCK) (hwf : pb.Wf)
    (h : vblock_reduce pb = .ok pb') : pb'.Wf := by
  obtain ⟨hc1, hbank, hcnt, hmax⟩ := hwf
  unfold vblock_reduce at h
  split at h
  · exact absurd h (by simp)
  · rw [Except.ok.injEq] at h
    subst h
    exact ⟨hc1, by simp [hbank], by simp; omega, hmax⟩

end Lilac

namespace Lilac

theorem iblock_alloc_spec (max_cap : Nat) (pb : IBLOCK)
    (h : iblock_alloc max_cap = .ok pb) :
    pb.Wf ∧ pb.icap = min IBLOCK_INITIAL max_cap ∧ pb.icount = 0 ∧
      pb.imax = max_cap := by
  unfold iblock_alloc at h
  split at h
  · exact absurd h (by simp)
  · rename_i hcond
    rw [Except.ok.injEq] at h
    subst h
    push_neg at hcond
    refine ⟨⟨?_, ?_, ?_, ?_⟩, ?_, rfl, rfl⟩ <;>
      simp only [IBLOCK.Wf, IBLOCK_INITIAL, List.length_replicate] <;>
      first
      | rfl
      | simp
      | (split <;> omega)

theorem iblock_append_full (pb : IBLOCK) (h1 : pb.icount ≥ pb.icap)
    (h2 : pb.icap ≥ pb.imax) : iblock_append pb = (-1, pb) := by
  simp [iblock_append, h1, h2]

theorem iblock_append_ok (pb : IBLOCK)
    (hbank : pb.pBank.length = pb.icap) (hcap : 1 ≤ pb.icap)
    (h : ¬(pb.icount ≥ pb.icap ∧ pb.icap ≥ pb.imax)) :
    (iblock_append pb).1 = (pb.icount : Int) ∧
    (iblock_append pb).2.icount = pb.icount + 1 ∧
    (iblock_append pb).2.imax = pb.imax ∧
    (iblock_append pb).2.icap =
      (if pb.icount ≥ pb.icap then min (2 * pb.icap) pb.imax
       else pb.icap) ∧
    (iblock_append pb).2.pBank.length = (iblock_append pb).2.icap ∧
    (∀ k, (iblock_append pb).2.pBank.getD k 0 = pb.pBank.getD k 0) := by
  by_cases h1 : pb.icount ≥ pb.icap
  · have h2 : ¬(pb.icap ≥ pb.imax) := fun hc => h ⟨h1, hc⟩
    have key : iblock_append pb =
        ((pb.icount : Int),
         { pb with
             pBank := pb.pBank ++ List.replicate
               ((if pb.icap * 2 > pb.imax then pb.imax else pb.icap * 2) -
                 pb.icap) 0
             icap := if pb.icap * 2 > pb.imax then pb.imax else pb.icap * 2
             icount := pb.icount + 1 }) := by
      simp [iblock_append, h1, h2]
    rw [key]
    refine ⟨rfl, rfl, rfl, ?_, ?_, ?_⟩
    · simp only [if_pos h1]
      split <;> omega
    · simp only [List.length_append, List.length_replicate, hbank]
      split <;> omega
    · intro k
      exact getD_append_dflt pb.pBank _ k 0
  · have key : iblock_append pb =
        ((pb.icount : Int), { pb with icount := pb.icount + 1 }) := by
      simp [iblock_append, h1]
    rw [key]
    exact ⟨rfl, rfl, rfl, by simp [h1], hbank, fun k => rfl⟩

theorem iblock_append_wf (pb : IBLOCK) (hwf : pb.Wf) :
    (iblock_append pb).2.Wf := by
  obtain ⟨hc1, hbank, hcnt, hmax⟩ := hwf
  by_cases h : pb.icount ≥ pb.icap ∧ pb.icap ≥ pb.imax
  · rw [iblock_append_full pb h.1 h.2]
    exact ⟨hc1, hbank, hcnt, hmax⟩
  · obtain ⟨_, h2, h3, h4, h5, _⟩ := iblock_append_ok pb hbank hc1 h
    refine ⟨?_, h5, ?_, ?_⟩
    · rw [h4]; split <;> omega
    · rw [h2, h4]; split <;> omega
    · rw [h4, h3]; split <;> omega

theorem iblock_reduce_wf (pb pb' : IBLOCK) (hwf : pb.Wf)
    (h : iblock_reduce pb = .ok pb') : pb'.Wf := by
  obtain ⟨hc1, hbank, hcnt, hmax⟩ := hwf
  unfold iblock_reduce at h
  split at h
  · exact absurd h (by simp)
  · rw [Except.ok.injEq] at h
    subst h
    exact ⟨hc1, by simp [hbank], by simp; omega, hmax⟩

theorem oblock_alloc_spec (max_cap : Nat) (pb : OBLOCK)
    (h : oblock_alloc max_cap = .ok pb) :
    pb.Wf ∧ pb.ocap = min OBLOCK_INITIAL max_cap ∧ pb.ocount = 0 ∧
      pb.omax = max_cap := by
  unfold oblock_alloc at h
  split at h
  · exact absurd h (by simp)
  · rename_i hcond
    rw [Except.ok.injEq] at h
    subst h
    push_neg at hcond
    refine ⟨⟨?_, ?_, ?_, ?_⟩, ?_, rfl, rfl⟩ <;>
      simp only [OBLOCK.Wf, OBLOCK_INITIAL, List.length_replicate] <;>
      first
      | rfl
      | simp
      | (split <;> omega)

theorem oblock_append_full (pb : OBLOCK) (fp : Nat) (hfp : fp ≠ 0)
    (h1 : pb.ocount ≥ pb.ocap) (h2 : pb.ocap ≥ pb.omax) :
    oblock_append pb fp = .ok (-1, pb) := by
  simp [oblock_append, hfp, h1, h2]

theorem oblock_append_ok (pb : OBLOCK) (fp : Nat) (hfp : fp ≠ 0)
    (hbank : pb.pBank.length = pb.ocap) (hcap : 1 ≤ pb.ocap)
    (h : ¬(pb.ocount ≥ pb.ocap ∧ pb.ocap ≥ pb.omax)) :
    ∃ pb', oblock_append pb fp = .ok ((pb.ocount : Int), pb') ∧
      pb'.ocount = pb.ocount + 1 ∧ pb'.omax = pb.omax ∧
      pb'.ocap =
        (if pb.ocount ≥ pb.ocap then min (2 * pb.ocap) pb.omax
         else pb.ocap) ∧
      pb'.pBank.length = pb'.ocap := by
  by_cases h1 : pb.ocount ≥ pb.ocap
  · have h2 : ¬(pb.ocap ≥ pb.omax) := fun hc => h ⟨h1, hc⟩
    refine ⟨{ pb with
        pBank := (pb.pBank ++ List.replicate
          ((if pb.ocap * 2 > pb.omax then pb.omax else pb.ocap * 2) -
            pb.ocap) 0).set pb.ocount fp
        ocap := if pb.ocap * 2 > pb.omax then pb.omax else pb.ocap * 2
        ocount := pb.ocount + 1 }, ?_, rfl, rfl, ?_, ?_⟩
    · simp [oblock_append, hfp, h1, h2]
    · simp only [if_pos h1]
      split <;> omega
    · simp only [List.length_set, List.length_append,
        List.length_replicate, hbank]
      split <;> omega
  · refine ⟨{ pb with
        pBank := pb.pBank.set pb.ocount fp
        ocount := pb.ocount + 1 }, ?_, rfl, rfl, ?_, ?_⟩
    · simp [oblock_append, hfp, h1]
    · simp [h1]
    · simp [List.length_set, hbank]

theorem oblock_append_wf (pb pb' : OBLOCK) (fp : Nat) (i : Int)
    (hwf : pb.Wf) (h : oblock_append pb fp = .ok (i, pb')) : pb'.Wf := by
  obtain ⟨hc1, hbank, hcnt, hmax⟩ := hwf
  by_cases hfp : fp = 0
  · exact absurd h (by simp [oblock_append, hfp])
  by_cases hfull : pb.ocount ≥ pb.ocap ∧ pb.ocap ≥ pb.omax
  · rw [oblock_append_full pb fp hfp hfull.1 hfull.2] at h
    rw [Except.ok.injEq, Prod.mk.injEq] at h
    rw [← h.2]
    exact ⟨hc1, hbank, hcnt, hmax⟩
  · obtain ⟨pb'', hok, h2, h3, h4, h5⟩ :=
      oblock_append_ok pb fp hfp hbank hc1 hfull
    rw [hok, Except.ok.injEq, Prod.mk.injEq] at h
    rw [← h.2]
    refine ⟨?_, h5, ?_, ?_⟩
    · rw [h4]; split <;> omega
    · rw [h2, h4]; split <;> omega
    · rw [h4, h3]; split <;> omega

end Lilac

namespace Lilac

/-- C8 counterexample: the initial capacity of a growable array is
`min(16, maximum)` and therefore depends on the maximum — allocating with
maximum 5 yields initial capacity 5 while maximum 100 yields 16.
Moreover a freshly allocated block with maximum 16 already has capacity
equal to the maximum, and appending to it still succeeds returning index
0 rather than the error signal `-1`: `-1` is returned only when the array
is *full* at maximum capacity. -/
theorem growable_array_initial_capacity_cex :
    (∃ pb5 : VBLOCK, vblock_alloc 5 = .ok pb5 ∧ pb5.vcap = 5) ∧
    (∃ pb100 : VBLOCK, vblock_alloc 100 = .ok pb100 ∧ pb100.vcap = 16) ∧
    ((5 : Nat) ≠ 16) ∧
    (∃ pb16 : VBLOCK, vblock_alloc 16 = .ok pb16 ∧
      pb16.vcap = pb16.vmax ∧ (vblock_append pb16).1 = 0) := by
  exact ⟨⟨_, rfl, rfl⟩, ⟨_, rfl, rfl⟩, by decide, ⟨_, rfl, rfl, rfl⟩⟩

/-- C8 amended: for each growable-array type (variant stack, integer
stack/bitset, operation table), `length ≤ capacity ≤ maximum` is
established by allocation and preserved by append and reduce; allocation
gives initial capacity `min(16, maximum)` (the constant 16 being
independent of the maximum, but clamped to it); an append when the array
is full but capacity is below the maximum grows capacity to
`min(2 × old capacity, maximum)`; and an append when the array is full
and capacity has reached the maximum returns the explicit error signal
`-1` leaving the block unchanged. -/
theorem growable_array_invariants :
    (∀ max_cap pb, vblock_alloc max_cap = .ok pb →
      pb.Wf ∧ pb.vcap = min VBLOCK_INITIAL max_cap) ∧
    (∀ pb : VBLOCK, pb.Wf →
      (vblock_append pb).2.Wf ∧
      (pb.vcount = pb.vcap → pb.vcap < pb.vmax →
        (vblock_append pb).2.vcap = min (2 * pb.vcap) pb.vmax ∧
        (vblock_append pb).1 = (pb.vcount : Int)) ∧
      (pb.vcount = pb.vcap → pb.vcap = pb.vmax →
        vblock_append pb = (-1, pb))) ∧
    (∀ pb pb' : VBLOCK, pb.Wf → vblock_reduce pb = .ok pb' → pb'.Wf) ∧
    (∀ max_cap pb, iblock_alloc max_cap = .ok pb →
      pb.Wf ∧ pb.icap = min IBLOCK_INITIAL max_cap) ∧
    (∀ pb : IBLOCK, pb.Wf →
      (iblock_append pb).2.Wf ∧
      (pb.icount = pb.icap → pb.icap < pb.imax →
        (iblock_append pb).2.icap = min (2 * pb.icap) pb.imax ∧
        (iblock_append pb).1 = (pb.icount : Int)) ∧
      (pb.icount = pb.icap → pb.icap = pb.imax →
        iblock_append pb = (-1, pb))) ∧
    (∀ pb pb' : IBLOCK, pb.Wf → iblock_reduce pb = .ok pb' → pb'.Wf) ∧
    (∀ max_cap pb, oblock_alloc max_cap = .ok pb →
      pb.Wf ∧ pb.ocap = min OBLOCK_INITIAL max_cap) ∧
    (∀ (pb pb' : OBLOCK) (fp : Nat) (i : Int), fp ≠ 0 → pb.Wf →
      (oblock_append pb fp = .ok (i, pb') → pb'.Wf) ∧
      (pb.ocount = pb.ocap → pb.ocap < pb.omax →
        ∃ pb'', oblock_append pb fp = .ok ((pb.ocount : Int), pb'') ∧
          pb''.ocap = min (2 * pb.ocap) pb.omax) ∧
      (pb.ocount = pb.ocap → pb.ocap = pb.omax →
        oblock_append pb fp = .ok (-1, pb))) := by
  refine ⟨?_, ?_, ?_, ?_, ?_, ?_, ?_, ?_⟩
  · intro max_cap pb h
    exact ⟨(vblock_alloc_spec max_cap pb h).1, (vblock_alloc_spec max_cap pb h).2.1⟩
  · intro pb hwf
    refine ⟨vblock_append_wf pb hwf, ?_, ?_⟩
    · intro hfull hlt
      have h : ¬(pb.vcount ≥ pb.vcap ∧ pb.vcap ≥ pb.vmax) := by omega
      obtain ⟨h1, _, _, h4, _, _⟩ := vblock_append_ok pb hwf.2.1 hwf.1 h
      rw [h4, if_pos (by omega)]
      exact ⟨rfl, h1⟩
    · intro hfull heq
      exact vblock_append_full pb (by omega) (by omega)
  · exact fun pb pb' hwf h => vblock_reduce_wf pb pb' hwf h
  · intro max_cap pb h
    exact ⟨(iblock_alloc_spec max_cap pb h).1, (iblock_alloc_spec max_cap pb h).2.1⟩
  · intro pb hwf
    refine ⟨iblock_append_wf pb hwf, ?_, ?_⟩
    · intro hfull hlt
      have h : ¬(pb.icount ≥ pb.icap ∧ pb.icap ≥ pb.imax) := by omega
      obtain ⟨h1, _, _, h4, _, _⟩ := iblock_append_ok pb hwf.2.1 hwf.1 h
      rw [h4, if_pos (by omega)]
      exact ⟨rfl, h1⟩
    · intro hfull heq
      exact iblock_append_full pb (by omega) (by omega)
  · exact fun pb pb' hwf h => iblock_reduce_wf pb pb' hwf h
  · intro max_cap pb h
    exact ⟨(oblock_alloc_spec max_cap pb h).1, (oblock_alloc_spec max_cap pb h).2.1⟩
  · intro pb pb' fp i hfp hwf
    refine ⟨fun h => oblock_append_wf pb pb' fp i hwf h, ?_, ?_⟩
    · intro hfull hlt
      have h : ¬(pb.ocount ≥ pb.ocap ∧ pb.ocap ≥ pb.omax) := by omega
      obtain ⟨pb'', hok, _, _, h4, _⟩ :=
        oblock_append_ok pb fp hfp hwf.2.1 hwf.1 h
      exact ⟨pb'', hok, by rw [h4, if_pos (by omega)]⟩
    · intro hfull heq
      exact oblock_append_full pb fp hfp (by omega) (by omega)

/-- Witness for the amended C8 at concrete blocks. -/
theorem growable_array_invariants_witness :
    ((⟨List.replicate 8 VARIANT.undef, 8, 8, 0⟩ : VBLOCK).Wf ∧
      (⟨List.replicate 8 VARIANT.undef, 8, 8, 0⟩ : VBLOCK).vcap =
        min VBLOCK_INITIAL 8) ∧
    (vblock_append ⟨List.replicate 8 VARIANT.undef, 8, 8, 0⟩).2.Wf ∧
    vblock_append ⟨[VARIANT.undef, VARIANT.undef], 2, 2, 2⟩ =
      (-1, ⟨[VARIANT.undef, VARIANT.undef], 2, 2, 2⟩) ∧
    (iblock_append ⟨[0, 0], 2, 4, 2⟩).2.icap = min (2 * 2) 4 := by
  refine ⟨growable_array_invariants.1 8 _ rfl, ?_, ?_, ?_⟩
  · exact (growable_array_invariants.2.1 _
      ⟨by decide, by decide, by decide, by decide⟩).1
  · exact (growable_array_invariants.2.1 _
      ⟨by decide, by decide, by decide, by decide⟩).2.2 rfl rfl
  · exact ((growable_array_invariants.2.2.2.2.1 _
      ⟨by decide, by decide, by decide, by decide⟩).2.1
      rfl (by decide)).1

end Lilac

namespace Lilac

theorem handlBeginGroup_ok_shape (st st' : VMState)
    (h : handlBeginGroup st = .ok st') :
    st.mRun = true ∧
    ∃ gs2, st' = { st with mGs := gs2 } ∧
      (iblock_append st.mGs).1 ≥ 0 ∧
      iblock_set (iblock_append st.mGs).2 (iblock_append st.mGs).1
        (vblock_count st.mSt) = .ok gs2 := by
  unfold handlBeginGroup at h
  simp only [bind, Except.bind, throw, throwThe, MonadExceptOf.throw, pure,
    Except.pure] at h
  split at h
  · exact absurd h (by simp)
  · rename_i hrun
    rcases hr : iblock_append st.mGs with ⟨i, gs⟩
    rw [hr] at h
    simp only at h
    split at h
    · exact absurd h (by simp)
    · rename_i hi
      rcases hs : iblock_set gs i (vblock_count st.mSt) with e | gs2
      · rw [hs] at h; exact absurd h (by simp)
      · rw [hs] at h
        simp only at h
        rw [Except.ok.injEq] at h
        refine ⟨by simpa using hrun, gs2, h.symm, ?_, rfl⟩
        simpa using hi

theorem handleEndGroup_eval (st : VMState) (hrun : st.mRun = true)
    (hgs : st.mGs.icount > 0) :
    handleEndGroup st =
      if ((vblock_count st.mSt : Int) - 1 ≠
          (st.mGs.pBank.getD (st.mGs.icount - 1) 0 : Int)) then .error 1773
      else .ok { st with mGs := { st.mGs with
          pBank := st.mGs.pBank.set (st.mGs.icount - 1) 0
          icount := st.mGs.icount - 1 } } := by
  have hget : iblock_get st.mGs ((iblock_count st.mGs : Int) - 1) =
      .ok (st.mGs.pBank.getD (st.mGs.icount - 1) 0) := by
    unfold iblock_get iblock_count
    rw [if_neg (by omega)]
    congr 1
    congr 1
    omega
  have hred : iblock_reduce st.mGs = .ok { st.mGs with
      pBank := st.mGs.pBank.set (st.mGs.icount - 1) 0
      icount := st.mGs.icount - 1 } := by
    unfold iblock_reduce
    rw [if_neg (by omega)]
  unfold handleEndGroup
  rw [hrun]
  simp only [Bool.not_true, Bool.false_eq_true, if_false, hget, hred, bind,
    Except.bind, throw, throwThe, MonadExceptOf.throw, pure, Except.pure]

/-- C5: begin-group pushes the current total operand-stack height
(including entries hidden by outer groups) onto the grouping stack and
leaves the operand stack untouched; end-group pops the grouping stack and
fails with a fatal error if and only if the current total stack height is
not exactly one more than the popped height. -/
theorem group_balance (st : VMState) (hrun : st.mRun = true)
    (hwf : st.mGs.Wf) :
    (∀ st', handlBeginGroup st = .ok st' →
      st'.mGs.icount = st.mGs.icount + 1 ∧
      st'.mGs.pBank.getD (st'.mGs.icount - 1) 0 = vblock_count st.mSt ∧
      st'.mSt = st.mSt) ∧
    (st.mGs.icount > 0 →
      ((∃ st', handleEndGroup st = .ok st') ↔
        (vblock_count st.mSt : Int) - 1 =
          (st.mGs.pBank.getD (st.mGs.icount - 1) 0 : Int)) ∧
      (∀ st', handleEndGroup st = .ok st' →
        st'.mGs.icount = st.mGs.icount - 1 ∧ st'.mSt = st.mSt)) := by
  obtain ⟨hw1, hw2, hw3, hw4⟩ := hwf
  constructor
  · intro st' h
    obtain ⟨_, gs2, hst', hi, hset⟩ := handlBeginGroup_ok_shape st st' h
    have hfull : ¬(st.mGs.icount ≥ st.mGs.icap ∧ st.mGs.icap ≥ st.mGs.imax) := by
      intro hc
      rw [iblock_append_full st.mGs hc.1 hc.2] at hi
      omega
    obtain ⟨h1, h2, h3, h4, h5, h6⟩ :=
      iblock_append_ok st.mGs hw2 hw1 hfull
    rw [h1] at hset
    unfold iblock_set at hset
    rw [if_neg (by omega)] at hset
    rw [Except.ok.injEq] at hset
    subst hset
    subst hst'
    refine ⟨by simpa using h2, ?_, rfl⟩
    simp only [h2]
    have htn : ((st.mGs.icount : Int)).toNat = st.mGs.icount := by omega
    rw [htn]
    have hidx : st.mGs.icount + 1 - 1 = st.mGs.icount := by omega
    rw [hidx]
    apply getD_set_self
    rw [h5, h4]
    split <;> omega
  · intro hgs
    constructor
    · constructor
      · rintro ⟨st', hok⟩
        rw [handleEndGroup_eval st hrun hgs] at hok
        by_contra hne
        rw [if_pos hne] at hok
        exact absurd hok (by simp)
      · intro hbal
        rw [handleEndGroup_eval st hrun hgs]
        rw [if_neg (by omega)]
        exact ⟨_, rfl⟩
    · intro st' hok
      rw [handleEndGroup_eval st hrun hgs] at hok
      split at hok
      · exact absurd hok (by simp)
      · rw [Except.ok.injEq] at hok
        subst hok
        exact ⟨rfl, rfl⟩

/-- Witness for C5 at a concrete interpreter state: a running state with
two stack entries and a group opened at height 1; end-group succeeds
(2 − 1 = 1) and begin-group pushes height 2. -/
theorem group_balance_witness :
    (∀ st', handlBeginGroup
        ⟨true, ⟨[.color 1, .color 2], 2, 4, 2⟩, ⟨[1, 0], 2, 4, 1⟩,
          [], ⟨[0], 1, 1, 0⟩, ⟨[.undef], 1, 4, 0⟩⟩ = .ok st' →
      st'.mGs.icount = 2 ∧
      st'.mGs.pBank.getD (st'.mGs.icount - 1) 0 = 2 ∧
      st'.mSt = ⟨[.color 1, .color 2], 2, 4, 2⟩) ∧
    (∃ st', handleEndGroup
        ⟨true, ⟨[.color 1, .color 2], 2, 4, 2⟩, ⟨[1, 0], 2, 4, 1⟩,
          [], ⟨[0], 1, 1, 0⟩, ⟨[.undef], 1, 4, 0⟩⟩ = .ok st') := by
  have key := group_balance
    ⟨true, ⟨[.color 1, .color 2], 2, 4, 2⟩, ⟨[1, 0], 2, 4, 1⟩,
      [], ⟨[0], 1, 1, 0⟩, ⟨[.undef], 1, 4, 0⟩⟩ rfl
    ⟨by decide, by decide, by decide, by decide⟩
  exact ⟨fun st' h => key.1 st' h, ((key.2 (by decide)).1).mpr (by decide)⟩

end Lilac

namespace Lilac

/-- The number of operand-stack entries hidden by the innermost group:
the value on top of the grouping stack, or zero when no group is open
(the `hide` computation of `vm_type`). -/
def gsHide (st : VMState) : Nat :=
  if iblock_count st.mGs > 0 then st.mGs.pBank.getD (st.mGs.icount - 1) 0
  else 0

theorem vm_type_eval (st : VMState) (hrun : st.mRun = true) :
    vm_type st =
      if vblock_count st.mSt > gsHide st then
        (if (st.mSt.pBank.getD (st.mSt.vcount - 1) .undef).vtype =
            VM_TYPE_UNDEF
         then .error 2086
         else .ok (st.mSt.pBank.getD (st.mSt.vcount - 1) .undef).vtype)
      else .ok VM_TYPE_UNDEF := by
  simp only [vm_type, gsHide, hrun, Bool.not_true, Bool.false_eq_true,
    if_false]

theorem vm_type_ok_node (st : VMState) (h : vm_type st = .ok VM_TYPE_NODE) :
    ∃ n, st.mSt.pBank.getD (st.mSt.vcount - 1) .undef = .node n := by
  by_cases hrun : st.mRun
  · rw [vm_type_eval st hrun] at h
    by_cases hvis : vblock_count st.mSt > gsHide st
    · rw [if_pos hvis] at h
      split at h
      · exact absurd h (by simp)
      · rw [Except.ok.injEq] at h
        rcases hv : st.mSt.pBank.getD (st.mSt.vcount - 1) .undef with
          _ | f | c | s | n <;> rw [hv] at h <;>
          simp [VARIANT.vtype, VM_TYPE_UNDEF, VM_TYPE_FLOAT, VM_TYPE_COLOR,
            VM_TYPE_STRING, VM_TYPE_NODE] at h
        exact ⟨n, rfl⟩
    · rw [if_neg hvis, Except.ok.injEq] at h
      exact absurd h (by decide)
  · simp only [vm_type] at h
    rw [if_pos (by simp [hrun])] at h
    exact absurd h (by simp)

theorem vm_pop_n_eval (st : VMState) (n : NODE)
    (htype : vm_type st = .ok VM_TYPE_NODE)
    (hcnt : 1 ≤ st.mSt.vcount)
    (htop : st.mSt.pBank.getD (st.mSt.vcount - 1) .undef = .node n) :
    vm_pop_n st = .ok (n, { st with mSt := { st.mSt with
        pBank := st.mSt.pBank.set (st.mSt.vcount - 1) .undef
        vcount := st.mSt.vcount - 1 } }) := by
  have hget : vblock_get st.mSt ((vblock_count st.mSt : Int) - 1) =
      .ok (.node n) := by
    unfold vblock_get vblock_count
    rw [if_neg (by omega)]
    rw [Except.ok.injEq,
      show ((st.mSt.vcount : Int) - 1).toNat = st.mSt.vcount - 1 by omega]
    exact htop
  have hred : vblock_reduce st.mSt = .ok { st.mSt with
      pBank := st.mSt.pBank.set (st.mSt.vcount - 1) .undef
      vcount := st.mSt.vcount - 1 } := by
    unfold vblock_reduce
    rw [if_neg (by omega)]
  unfold vm_pop_n
  simp only [htype, hget, hred, bind, Except.bind, throw, throwThe,
    MonadExceptOf.throw, pure, Except.pure]
  simp

/-- C2: at end-of-input the stack machine requires the operand stack to
hold exactly one value and that value to be a (visible) Node; in that
case the run succeeds and that very Node is returned with running mode
cleared, and in every other case the run fails with a fatal error. -/
theorem vm_run_finish_spec (st : VMState) (hrun : st.mRun = true) :
    ((∃ n st', vm_run_finish st = .ok (n, st')) ↔
      (vblock_count st.mSt = 1 ∧ vm_type st = .ok VM_TYPE_NODE)) ∧
    (∀ n st', vm_run_finish st = .ok (n, st') →
      st.mSt.pBank.getD 0 .undef = .node n ∧ st'.mRun = false ∧
        st'.mSt.vcount = 0) := by
  have key : ∀ n st', vm_run_finish st = .ok (n, st') →
      vblock_count st.mSt = 1 ∧ vm_type st = .ok VM_TYPE_NODE ∧
      st.mSt.pBank.getD 0 .undef = .node n ∧ st'.mRun = false ∧
      st'.mSt.vcount = 0 := by
    intro n st' hok
    unfold vm_run_finish at hok
    simp only [bind, Except.bind, throw, throwThe, MonadExceptOf.throw,
      pure, Except.pure] at hok
    split at hok
    · exact absurd hok (by simp)
    · rename_i hcnt
      rw [not_not] at hcnt
      rcases ht : vm_type st with e | t
      · rw [ht] at hok; exact absurd hok (by simp)
      · rw [ht] at hok
        simp only at hok
        split at hok
        · exact absurd hok (by simp)
        · rename_i htn
          rw [not_not] at htn
          subst htn
          obtain ⟨n0, htop⟩ := vm_type_ok_node st ht
          have hc1 : 1 ≤ st.mSt.vcount := by
            unfold vblock_count at hcnt; omega
          rw [vm_pop_n_eval st n0 ht hc1 htop] at hok
          simp only at hok
          rw [Except.ok.injEq, Prod.mk.injEq] at hok
          obtain ⟨hn, hst'⟩ := hok
          subst hn
          subst hst'
          have h0 : st.mSt.vcount - 1 = 0 := by
            unfold vblock_count at hcnt; omega
          rw [h0] at htop
          exact ⟨hcnt, rfl, htop, rfl, by simpa using h0⟩
  constructor
  · constructor
    · rintro ⟨n, st', hok⟩
      exact ⟨(key n st' hok).1, (key n st' hok).2.1⟩
    · rintro ⟨hcnt, htype⟩
      obtain ⟨n0, htop⟩ := vm_type_ok_node st htype
      have hc1 : 1 ≤ st.mSt.vcount := by
        unfold vblock_count at hcnt; omega
      refine ⟨n0, { st with
        mRun := false
        mSt := { st.mSt with
          pBank := st.mSt.pBank.set (st.mSt.vcount - 1) .undef
          vcount := st.mSt.vcount - 1 } }, ?_⟩
      unfold vm_run_finish
      simp only [bind, Except.bind, throw, throwThe, MonadExceptOf.throw,
        pure, Except.pure, hcnt]
      rw [htype]
      simp only at *
      rw [vm_pop_n_eval st n0 htype hc1 htop]
      simp [VM_TYPE_NODE]
  · intro n st' hok
    exact ⟨(key n st' hok).2.2.1, (key n st' hok).2.2.2.1,
      (key n st' hok).2.2.2.2⟩

/-- Witness for C2 at a concrete state: a running machine whose stack
holds exactly one node value successfully finishes and returns it. -/
theorem vm_run_finish_spec_witness :
    (∃ n st', vm_run_finish
      ⟨true, ⟨[.node ⟨7, 1, 1⟩], 1, 4, 1⟩, ⟨[0], 1, 1, 0⟩,
        [], ⟨[0], 1, 1, 0⟩, ⟨[.undef], 1, 4, 0⟩⟩ = .ok (n, st')) ∧
    (⟨true, ⟨[.node ⟨7, 1, 1⟩], 1, 4, 1⟩, ⟨[0], 1, 1, 0⟩,
        [], ⟨[0], 1, 1, 0⟩, ⟨[.undef], 1, 4, 0⟩⟩ : VMState).mSt.pBank.getD
      0 .undef = .node ⟨7, 1, 1⟩ := by
  have key := vm_run_finish_spec
    ⟨true, ⟨[.node ⟨7, 1, 1⟩], 1, 4, 1⟩, ⟨[0], 1, 1, 0⟩,
      [], ⟨[0], 1, 1, 0⟩, ⟨[.undef], 1, 4, 0⟩⟩ rfl
  exact ⟨key.1.mpr ⟨by decide, by rfl⟩, by decide⟩

end Lilac

namespace Lilac

theorem vm_type_of_top (st : VMState) (hrun : st.mRun = true)
    (hvis : vblock_count st.mSt > gsHide st) (v : VARIANT)
    (htop : st.mSt.pBank.getD (st.mSt.vcount - 1) .undef = v)
    (hne : v.vtype ≠ VM_TYPE_UNDEF) :
    vm_type st = .ok v.vtype := by
  rw [vm_type_eval st hrun, if_pos hvis, htop, if_neg hne]

theorem vm_push_f_ok_shape (st st' : VMState) (f : CDouble)
    (h : vm_push_f st f = .ok st') :
    st.mRun = true ∧ f.isfinite = true ∧
    ∃ b2, st' = { st with mSt := b2 } ∧
      ¬ (vblock_append st.mSt).1 < 0 ∧
      vblock_set (vblock_append st.mSt).2 (vblock_append st.mSt).1
        (.float f) = .ok b2 := by
  unfold vm_push_f at h
  simp only [bind, Except.bind, throw, throwThe, MonadExceptOf.throw, pure,
    Except.pure] at h
  split at h
  · exact absurd h (by simp)
  · rename_i hrun
    split at h
    · exact absurd h (by simp)
    · rename_i hfin
      rcases hr : vblock_append st.mSt with ⟨i, b⟩
      rw [hr] at h
      simp only at h
      split at h
      · exact absurd h (by simp)
      · rename_i hi
        rcases hs : vblock_set b i (.float f) with e | b2
        · rw [hs] at h; exact absurd h (by simp)
        · rw [hs] at h
          simp only at h
          rw [Except.ok.injEq] at h
          exact ⟨by simpa using hrun, by simpa using hfin, b2, h.symm, hi, rfl⟩

theorem vm_push_c_ok_shape (st st' : VMState) (col : Nat)
    (h : vm_push_c st col = .ok st') :
    st.mRun = true ∧
    ∃ b2, st' = { st with mSt := b2 } ∧
      ¬ (vblock_append st.mSt).1 < 0 ∧
      vblock_set (vblock_append st.mSt).2 (vblock_append st.mSt).1
        (.color col) = .ok b2 := by
  unfold vm_push_c at h
  simp only [bind, Except.bind, throw, throwThe, MonadExceptOf.throw, pure,
    Except.pure] at h
  split at h
  · exact absurd h (by simp)
  · rename_i hrun
    rcases hr : vblock_append st.mSt with ⟨i, b⟩
    rw [hr] at h
    simp only at h
    split at h
    · exact absurd h (by simp)
    · rename_i hi
      rcases hs : vblock_set b i (.color col) with e | b2
      · rw [hs] at h; exact absurd h (by simp)
      · rw [hs] at h
        simp only at h
        rw [Except.ok.injEq] at h
        exact ⟨by simpa using hrun, b2, h.symm, hi, rfl⟩

theorem vm_push_s_ok_shape (st st' : VMState) (s : String)
    (h : vm_push_s st (some s) = .ok st') :
    st.mRun = true ∧
    ∃ b2, st' = { st with mSt := b2 } ∧
      ¬ (vblock_append st.mSt).1 < 0 ∧
      vblock_set (vblock_append st.mSt).2 (vblock_append st.mSt).1
        (.str s) = .ok b2 := by
  unfold vm_push_s at h
  simp only [bind, Except.bind, throw, throwThe, MonadExceptOf.throw, pure,
    Except.pure] at h
  split at h
  · exact absurd h (by simp)
  · rename_i hrun
    rcases hr : vblock_append st.mSt with ⟨i, b⟩
    rw [hr] at h
    simp only at h
    split at h
    · exact absurd h (by simp)
    · rename_i hi
      rcases hs : vblock_set b i (.str s) with e | b2
      · rw [hs] at h; exact absurd h (by simp)
      · rw [hs] at h
        simp only at h
        rw [Except.ok.injEq] at h
        exact ⟨by simpa using hrun, b2, h.symm, hi, rfl⟩

theorem vm_push_n_ok_shape (st st' : VMState) (n : NODE)
    (h : vm_push_n st (some n) = .ok st') :
    st.mRun = true ∧
    ∃ b2, st' = { st with mSt := b2 } ∧
      ¬ (vblock_append st.mSt).1 < 0 ∧
      vblock_set (vblock_append st.mSt).2 (vblock_append st.mSt).1
        (.node n) = .ok b2 := by
  unfold vm_push_n at h
  simp only [bind, Except.bind, throw, throwThe, MonadExceptOf.throw, pure,
    Except.pure] at h
  split at h
  · exact absurd h (by simp)
  · rename_i hrun
    rcases hr : vblock_append st.mSt with ⟨i, b⟩
    rw [hr] at h
    simp only at h
    split at h
    · exact absurd h (by simp)
    · rename_i hi
      rcases hs : vblock_set b i (.node n) with e | b2
      · rw [hs] at h; exact absurd h (by simp)
      · rw [hs] at h
        simp only at h
        rw [Except.ok.injEq] at h
        exact ⟨by simpa using hrun, b2, h.symm, hi, rfl⟩

/-- After a successful typed push (append then set) on a well-formed
stack, the pushed variant sits visibly on top and only the count grew. -/
theorem push_core_spec (st : VMState) (v : VARIANT) (b2 : VBLOCK)
    (hwf : st.mSt.Wf)
    (hi : ¬ (vblock_append st.mSt).1 < 0)
    (hset : vblock_set (vblock_append st.mSt).2 (vblock_append st.mSt).1
      v = .ok b2) :
    b2.vcount = st.mSt.vcount + 1 ∧
    b2.pBank.getD (b2.vcount - 1) .undef = v := by
  obtain ⟨hw1, hw2, hw3, hw4⟩ := hwf
  have hfull : ¬(st.mSt.vcount ≥ st.mSt.vcap ∧
      st.mSt.vcap ≥ st.mSt.vmax) := by
    intro hc
    rw [vblock_append_full st.mSt hc.1 hc.2] at hi
    simp at hi
  obtain ⟨h1, h2, h3, h4, h5, h6⟩ := vblock_append_ok st.mSt hw2 hw1 hfull
  rw [h1] at hset
  unfold vblock_set at hset
  rw [if_neg (by rw [h2]; omega)] at hset
  rw [Except.ok.injEq] at hset
  have hcapge : st.mSt.vcount < (vblock_append st.mSt).2.vcap := by
    rw [h4]; split <;> omega
  have hb2cnt : b2.vcount = st.mSt.vcount + 1 := by
    rw [← hset]; simpa using h2
  refine ⟨hb2cnt, ?_⟩
  rw [hb2cnt]
  rw [← hset]
  simp only
  rw [show ((st.mSt.vcount : Int)).toNat = st.mSt.vcount by omega]
  rw [show st.mSt.vcount + 1 - 1 = st.mSt.vcount by omega]
  apply getD_set_self
  rw [h5]; exact hcapge

theorem vm_pop_f_eval (st : VMState) (f : CDouble)
    (htype : vm_type st = .ok VM_TYPE_FLOAT)
    (hcnt : 1 ≤ st.mSt.vcount)
    (htop : st.mSt.pBank.getD (st.mSt.vcount - 1) .undef = .float f) :
    vm_pop_f st = .ok (f, { st with mSt := { st.mSt with
        pBank := st.mSt.pBank.set (st.mSt.vcount - 1) .undef
        vcount := st.mSt.vcount - 1 } }) := by
  have hget : vblock_get st.mSt ((vblock_count st.mSt : Int) - 1) =
      .ok (.float f) := by
    unfold vblock_get vblock_count
    rw [if_neg (by omega)]
    rw [Except.ok.injEq,
      show ((st.mSt.vcount : Int) - 1).toNat = st.mSt.vcount - 1 by omega]
    exact htop
  have hred : vblock_reduce st.mSt = .ok { st.mSt with
      pBank := st.mSt.pBank.set (st.mSt.vcount - 1) .undef
      vcount := st.mSt.vcount - 1 } := by
    unfold vblock_reduce
    rw [if_neg (by omega)]
  unfold vm_pop_f
  simp only [htype, hget, hred, bind, Except.bind, throw, throwThe,
    MonadExceptOf.throw, pure, Except.pure]
  simp

theorem vm_pop_c_eval (st : VMState) (col : Nat)
    (htype : vm_type st = .ok VM_TYPE_COLOR)
    (hcnt : 1 ≤ st.mSt.vcount)
    (htop : st.mSt.pBank.getD (st.mSt.vcount - 1) .undef = .color col) :
    vm_pop_c st = .ok (col, { st with mSt := { st.mSt with
        pBank := st.mSt.pBank.set (st.mSt.vcount - 1) .undef
        vcount := st.mSt.vcount - 1 } }) := by
  have hget : vblock_get st.mSt ((vblock_count st.mSt : Int) - 1) =
      .ok (.color col) := by
    unfold vblock_get vblock_count
    rw [if_neg (by omega)]
    rw [Except.ok.injEq,
      show ((st.mSt.vcount : Int) - 1).toNat = st.mSt.vcount - 1 by omega]
    exact htop
  have hred : vblock_reduce st.mSt = .ok { st.mSt with
      pBank := st.mSt.pBank.set (st.mSt.vcount - 1) .undef
      vcount := st.mSt.vcount - 1 } := by
    unfold vblock_reduce
    rw [if_neg (by omega)]
  unfold vm_pop_c
  simp only [htype, hget, hred, bind, Except.bind, throw, throwThe,
    MonadExceptOf.throw, pure, Except.pure]
  simp

theorem vm_pop_s_eval (st : VMState) (s : String)
    (htype : vm_type st = .ok VM_TYPE_STRING)
    (hcnt : 1 ≤ st.mSt.vcount)
    (htop : st.mSt.pBank.getD (st.mSt.vcount - 1) .undef = .str s) :
    vm_pop_s st = .ok (s, { st with mSt := { st.mSt with
        pBank := st.mSt.pBank.set (st.mSt.vcount - 1) .undef
        vcount := st.mSt.vcount - 1 } }) := by
  have hget : vblock_get st.mSt ((vblock_count st.mSt : Int) - 1) =
      .ok (.str s) := by
    unfold vblock_get vblock_count
    rw [if_neg (by omega)]
    rw [Except.ok.injEq,
      show ((st.mSt.vcount : Int) - 1).toNat = st.mSt.vcount - 1 by omega]
    exact htop
  have hred : vblock_reduce st.mSt = .ok { st.mSt with
      pBank := st.mSt.pBank.set (st.mSt.vcount - 1) .undef
      vcount := st.mSt.vcount - 1 } := by
    unfold vblock_reduce
    rw [if_neg (by omega)]
  unfold vm_pop_s
  simp only [htype, hget, hred, bind, Except.bind, throw, throwThe,
    MonadExceptOf.throw, pure, Except.pure]
  simp

end Lilac

namespace Lilac

/-- Common tail of the push/pop round trips: after a successful push of a
non-`undef` variant, the pushed value is the visible top of the stack. -/
theorem push_visible_top (st : VMState) (v : VARIANT) (b2 : VBLOCK)
    (hwf : st.mSt.Wf) (hhide : gsHide st ≤ vblock_count st.mSt)
    (hrun : st.mRun = true) (hne : v.vtype ≠ VM_TYPE_UNDEF)
    (hi : ¬ (vblock_append st.mSt).1 < 0)
    (hset : vblock_set (vblock_append st.mSt).2 (vblock_append st.mSt).1
      v = .ok b2) :
    vm_type { st with mSt := b2 } = .ok v.vtype ∧
    1 ≤ b2.vcount ∧
    b2.pBank.getD (b2.vcount - 1) .undef = v ∧
    b2.vcount = st.mSt.vcount + 1 := by
  obtain ⟨hcnt, htop⟩ := push_core_spec st v b2 hwf hi hset
  have hrun' : ({ st with mSt := b2 } : VMState).mRun = true := by
    simpa using hrun
  have hvis : vblock_count ({ st with mSt := b2 } : VMState).mSt >
      gsHide { st with mSt := b2 } := by
    have : gsHide { st with mSt := b2 } = gsHide st := by
      simp [gsHide, iblock_count]
    rw [this]
    unfold vblock_count at *
    simp only
    omega
  exact ⟨vm_type_of_top _ hrun' hvis v htop hne, by omega, htop, hcnt⟩

theorem vm_pop_hidden_error (st : VMState) (hrun : st.mRun = true)
    (hhidden : vblock_count st.mSt ≤ gsHide st) :
    ∀ st', vm_pop st ≠ .ok st' := by
  intro st' h
  have htype : vm_type st = .ok VM_TYPE_UNDEF := by
    rw [vm_type_eval st hrun, if_neg (by omega)]
  unfold vm_pop at h
  rw [htype] at h
  simp only [bind, Except.bind, throw, throwThe, MonadExceptOf.throw, pure,
    Except.pure] at h
  exact absurd h (by simp)

/-- C9: on a well-formed running interpreter state (the group hide count
not exceeding the stack height, as the interpreter maintains), a typed
pop immediately after a successful typed push — for each of the four
value types — yields a value equal to the pushed one and restores the
prior stack height; and a `vm_pop` when the visible region of the stack
is empty (the stack is empty, or all entries are hidden by the current
group) is always an error. -/
theorem stack_roundtrip :
    (∀ st st' f, st.mSt.Wf → gsHide st ≤ vblock_count st.mSt →
      vm_push_f st f = .ok st' →
      ∃ st'', vm_pop_f st' = .ok (f, st'') ∧
        vblock_count st''.mSt = vblock_count st.mSt) ∧
    (∀ st st' col, st.mSt.Wf → gsHide st ≤ vblock_count st.mSt →
      vm_push_c st col = .ok st' →
      ∃ st'', vm_pop_c st' = .ok (col, st'') ∧
        vblock_count st''.mSt = vblock_count st.mSt) ∧
    (∀ st st' s, st.mSt.Wf → gsHide st ≤ vblock_count st.mSt →
      vm_push_s st (some s) = .ok st' →
      ∃ st'', vm_pop_s st' = .ok (s, st'') ∧
        vblock_count st''.mSt = vblock_count st.mSt) ∧
    (∀ st st' n, st.mSt.Wf → gsHide st ≤ vblock_count st.mSt →
      vm_push_n st (some n) = .ok st' →
      ∃ st'', vm_pop_n st' = .ok (n, st'') ∧
        vblock_count st''.mSt = vblock_count st.mSt) ∧
    (∀ st, st.mRun = true → vblock_count st.mSt ≤ gsHide st →
      ∀ st', vm_pop st ≠ .ok st') := by
  refine ⟨?_, ?_, ?_, ?_, fun st hrun hh => vm_pop_hidden_error st hrun hh⟩
  · intro st st' f hwf hhide h
    obtain ⟨hrun, hfin, b2, hst', hi, hset⟩ := vm_push_f_ok_shape st st' f h
    obtain ⟨htype, hc1, htop, hcnt⟩ := push_visible_top st (.float f) b2
      hwf hhide hrun (by simp [VARIANT.vtype, VM_TYPE_FLOAT, VM_TYPE_UNDEF])
      hi hset
    subst hst'
    refine ⟨_, vm_pop_f_eval _ f htype hc1 htop, ?_⟩
    unfold vblock_count
    simp only
    omega
  · intro st st' col hwf hhide h
    obtain ⟨hrun, b2, hst', hi, hset⟩ := vm_push_c_ok_shape st st' col h
    obtain ⟨htype, hc1, htop, hcnt⟩ := push_visible_top st (.color col) b2
      hwf hhide hrun (by simp [VARIANT.vtype, VM_TYPE_COLOR, VM_TYPE_UNDEF])
      hi hset
    subst hst'
    refine ⟨_, vm_pop_c_eval _ col htype hc1 htop, ?_⟩
    unfold vblock_count
    simp only
    omega
  · intro st st' s hwf hhide h
    obtain ⟨hrun, b2, hst', hi, hset⟩ := vm_push_s_ok_shape st st' s h
    obtain ⟨htype, hc1, htop, hcnt⟩ := push_visible_top st (.str s) b2
      hwf hhide hrun (by simp [VARIANT.vtype, VM_TYPE_STRING, VM_TYPE_UNDEF])
      hi hset
    subst hst'
    refine ⟨_, vm_pop_s_eval _ s htype hc1 htop, ?_⟩
    unfold vblock_count
    simp only
    omega
  · intro st st' n hwf hhide h
    obtain ⟨hrun, b2, hst', hi, hset⟩ := vm_push_n_ok_shape st st' n h
    obtain ⟨htype, hc1, htop, hcnt⟩ := push_visible_top st (.node n) b2
      hwf hhide hrun (by simp [VARIANT.vtype, VM_TYPE_NODE, VM_TYPE_UNDEF])
      hi hset
    subst hst'
    refine ⟨_, vm_pop_n_eval _ n htype hc1 htop, ?_⟩
    unfold vblock_count
    simp only
    omega

/-- Witness for C9: pushing the float with bit pattern 0 onto a concrete
empty running stack and popping yields it back at height 0, and popping
with everything hidden by a group errors. -/
theorem stack_roundtrip_witness :
    (∃ st'', vm_pop_f
        ⟨true, ⟨[.float ⟨0⟩, .undef], 2, 4, 1⟩, ⟨[0], 1, 1, 0⟩,
          [], ⟨[0], 1, 1, 0⟩, ⟨[.undef], 1, 4, 0⟩⟩ = .ok (⟨0⟩, st'') ∧
      vblock_count st''.mSt = 0) ∧
    (∀ st', vm_pop
        ⟨true, ⟨[.undef], 1, 4, 0⟩, ⟨[1], 1, 1, 1⟩,
          [], ⟨[0], 1, 1, 0⟩, ⟨[.undef], 1, 4, 0⟩⟩ ≠ .ok st') := by
  constructor
  · exact stack_roundtrip.1
      ⟨true, ⟨[.undef, .undef], 2, 4, 0⟩, ⟨[0], 1, 1, 0⟩,
        [], ⟨[0], 1, 1, 0⟩, ⟨[.undef], 1, 4, 0⟩⟩
      ⟨true, ⟨[.float ⟨0⟩, .undef], 2, 4, 1⟩, ⟨[0], 1, 1, 0⟩,
        [], ⟨[0], 1, 1, 0⟩, ⟨[.undef], 1, 4, 0⟩⟩ ⟨0⟩
      ⟨by decide, by decide, by decide, by decide⟩ (by decide) (by rfl)
  · exact stack_roundtrip.2.2.2.2
      ⟨true, ⟨[.undef], 1, 4, 0⟩, ⟨[1], 1, 1, 1⟩,
        [], ⟨[0], 1, 1, 0⟩, ⟨[.undef], 1, 4, 0⟩⟩ rfl (by decide)

end Lilac

namespace Lilac

/-! ## Namespace immutability (C6): definitions and frame lemmas -/

/-- The name is declared: it is mapped in the namespace dictionary. -/
def declaredName (st : VMState) (name : String) : Prop :=
  (st.mNsDict.find? (fun p => p.1 = name)).isSome

/-- The name is declared with the constant flag set: its index maps to a
live flag word whose bit `index % 32` is set. -/
def constFlagged (st : VMState) (name : String) : Prop :=
  ∃ p, st.mNsDict.find? (fun p => p.1 = name) = some p ∧
    p.2 / 32 < st.mNsFlag.icount ∧
    (st.mNsFlag.pBank.getD (p.2 / 32) 0) &&& ((1 : Nat) <<< (p.2 % 32)) ≠ 0

theorem iblock_append_nonneg_spec (pb : IBLOCK)
    (h : ¬ (iblock_append pb).1 < 0) :
    (iblock_append pb).1 = (pb.icount : Int) ∧
    (iblock_append pb).2.icount = pb.icount + 1 ∧
    ∀ k, (iblock_append pb).2.pBank.getD k 0 = pb.pBank.getD k 0 := by
  by_cases h1 : pb.icount ≥ pb.icap
  · by_cases h2 : pb.icap ≥ pb.imax
    · rw [iblock_append_full pb h1 h2] at h
      simp at h
    · have key : iblock_append pb =
          ((pb.icount : Int),
           { pb with
               pBank := pb.pBank ++ List.replicate
                 ((if pb.icap * 2 > pb.imax then pb.imax else pb.icap * 2) -
                   pb.icap) 0
               icap := if pb.icap * 2 > pb.imax then pb.imax
                 else pb.icap * 2
               icount := pb.icount + 1 }) := by
        simp [iblock_append, h1, h2]
      rw [key]
      exact ⟨rfl, rfl, fun k => getD_append_dflt pb.pBank _ k 0⟩
  · have key : iblock_append pb =
        ((pb.icount : Int), { pb with icount := pb.icount + 1 }) := by
      simp [iblock_append, h1]
    rw [key]
    exact ⟨rfl, rfl, fun k => rfl⟩

theorem iblock_set_ok_spec (pb : IBLOCK) (i : Int) (v : Nat) (pb' : IBLOCK)
    (h : iblock_set pb i v = .ok pb') :
    pb'.icount = pb.icount ∧ pb'.pBank = pb.pBank.set i.toNat v ∧
    ¬ i < 0 ∧ i < (pb.icount : Int) := by
  unfold iblock_set at h
  split at h
  · exact absurd h (by simp)
  · rename_i hc
    push_neg at hc
    rw [Except.ok.injEq] at h
    rw [← h]
    exact ⟨rfl, rfl, by omega, by omega⟩

theorem vm_pop_ok_shape (st st' : VMState) (h : vm_pop st = .ok st') :
    ∃ b, st' = { st with mSt := b } := by
  unfold vm_pop at h
  simp only [bind, Except.bind, throw, throwThe, MonadExceptOf.throw, pure,
    Except.pure] at h
  rcases ht : vm_type st with e | t
  · rw [ht] at h; exact absurd h (by simp)
  · rw [ht] at h
    simp only at h
    split at h
    · exact absurd h (by simp)
    · rcases hb : vblock_reduce st.mSt with e | b
      · rw [hb] at h; exact absurd h (by simp)
      · rw [hb] at h
        simp only at h
        rw [Except.ok.injEq] at h
        exact ⟨b, h.symm⟩

theorem vm_dup_ok_shape (st st' : VMState) (h : vm_dup st = .ok st') :
    ∃ b, st' = { st with mSt := b } := by
  unfold vm_dup at h
  simp only [bind, Except.bind, throw, throwThe, MonadExceptOf.throw, pure,
    Except.pure] at h
  rcases ht : vm_type st with e | t
  · rw [ht] at h; exact absurd h (by simp)
  · rw [ht] at h
    simp only at h
    split at h
    · exact absurd h (by simp)
    · rcases hv : vblock_get st.mSt ((vblock_count st.mSt : Int) - 1) with
        e | v
      · rw [hv] at h; exact absurd h (by simp)
      · rw [hv] at h
        simp only at h
        rcases hr : vblock_append st.mSt with ⟨i, b⟩
        rw [hr] at h
        simp only at h
        split at h
        · exact absurd h (by simp)
        · rcases hs : vblock_set b i v with e | b2
          · rw [hs] at h; exact absurd h (by simp)
          · rw [hs] at h
            simp only at h
            rw [Except.ok.injEq] at h
            exact ⟨b2, h.symm⟩

theorem handleGet_ok_shape (st st' : VMState) (name : String)
    (h : handleGet st name = .ok st') :
    ∃ b, st' = { st with mSt := b } := by
  unfold handleGet at h
  simp only [bind, Except.bind, throw, throwThe, MonadExceptOf.throw, pure,
    Except.pure] at h
  split at h
  · exact absurd h (by simp)
  · split at h
    · exact absurd h (by simp)
    · split at h
      · exact absurd h (by simp)
      · rcases hv : vblock_get st.mNs (rfdict_get st.mNsDict name (-1)) with
          e | v
        · rw [hv] at h; exact absurd h (by simp)
        · rw [hv] at h
          simp only at h
          rcases hr : vblock_append st.mSt with ⟨i, b⟩
          rw [hr] at h
          simp only at h
          split at h
          · exact absurd h (by simp)
          · rcases hs : vblock_set b i v with e | b2
            · rw [hs] at h; exact absurd h (by simp)
            · rw [hs] at h
              simp only at h
              rw [Except.ok.injEq] at h
              exact ⟨b2, h.symm⟩

theorem handleEndGroup_ok_shape (st st' : VMState)
    (h : handleEndGroup st = .ok st') :
    ∃ gs, st' = { st with mGs := gs } := by
  unfold handleEndGroup at h
  simp only [bind, Except.bind, throw, throwThe, MonadExceptOf.throw, pure,
    Except.pure] at h
  split at h
  · exact absurd h (by simp)
  · rcases hg : iblock_get st.mGs ((iblock_count st.mGs : Int) - 1) with
      e | s0
    · rw [hg] at h; exact absurd h (by simp)
    · rw [hg] at h
      simp only at h
      rcases hr : iblock_reduce st.mGs with e | gs
      · rw [hr] at h; exact absurd h (by simp)
      · rw [hr] at h
        simp only at h
        split at h
        · exact absurd h (by simp)
        · rw [Except.ok.injEq] at h
          exact ⟨gs, h.symm⟩

end Lilac

namespace Lilac

theorem handleAssign_ok_shape (st st' : VMState) (name : String)
    (h : handleAssign st name = .ok st') :
    st'.mNsDict = st.mNsDict ∧ st'.mNsFlag = st.mNsFlag ∧
    ¬ rfdict_get st.mNsDict name (-1) < 0 ∧
    (∃ cv, iblock_get st.mNsFlag
        (((rfdict_get st.mNsDict name (-1)).toNat / 32 : Nat) : Int) =
        .ok cv ∧
      cv &&& ((1 : Nat) <<<
        ((rfdict_get st.mNsDict name (-1)).toNat % 32)) = 0) := by
  unfold handleAssign at h
  simp only [bind, Except.bind, throw, throwThe, MonadExceptOf.throw, pure,
    Except.pure] at h
  split at h
  · exact absurd h (by simp)
  · split at h
    · exact absurd h (by simp)
    · rcases ht : vm_type st with e | t
      · rw [ht] at h; exact absurd h (by simp)
      · rw [ht] at h
        simp only at h
        split at h
        · exact absurd h (by simp)
        · split at h
          · exact absurd h (by simp)
          · rename_i hneg
            rcases hg : iblock_get st.mNsFlag
                (((rfdict_get st.mNsDict name (-1)).toNat / 32 : Nat) : Int)
                with e | cv
            · rw [hg] at h; exact absurd h (by simp)
            · rw [hg] at h
              simp only at h
              split at h
              · exact absurd h (by simp)
              · rename_i hbit
                rw [not_not] at hbit
                rcases hv : vblock_get st.mSt
                    ((vblock_count st.mSt : Int) - 1) with e | v
                · rw [hv] at h; exact absurd h (by simp)
                · rw [hv] at h
                  simp only at h
                  rcases hp : vm_pop st with e | st1
                  · rw [hp] at h; exact absurd h (by simp)
                  · rw [hp] at h
                    simp only at h
                    rcases hs : vblock_set st1.mNs
                        (rfdict_get st.mNsDict name (-1)) v with e | ns2
                    · rw [hs] at h; exact absurd h (by simp)
                    · rw [hs] at h
                      simp only at h
                      rw [Except.ok.injEq] at h
                      obtain ⟨b, hst1⟩ := vm_pop_ok_shape st st1 hp
                      subst hst1
                      rw [← h]
                      exact ⟨rfl, rfl, hneg, cv, rfl, hbit⟩

theorem declare_flags_fresh_spec (flags fl1 : IBLOCK) (iN : Nat)
    (h : declare_flags_fresh flags iN = .ok fl1) :
    fl1.icount ≥ flags.icount ∧
    (∀ offs, offs < flags.icount →
      fl1.pBank.getD offs 0 = flags.pBank.getD offs 0) := by
  unfold declare_flags_fresh at h
  split at h
  · rcases hfa : iblock_append flags with ⟨j, f1⟩
    rw [hfa] at h
    simp only at h
    split at h
    · exact absurd h (by simp)
    · rename_i hj
      obtain ⟨hj1, hj2, hj3⟩ := iblock_append_nonneg_spec flags
        (by rw [hfa]; simpa using hj)
      rw [hfa] at hj1 hj2 hj3
      obtain ⟨hs1, hs2, hs3, hs4⟩ := iblock_set_ok_spec f1 j 0 fl1 h
      constructor
      · rw [hs1]; simp only at hj2; omega
      · intro offs hoffs
        rw [hs2]
        rw [getD_set_ne]
        · exact hj3 offs
        · simp only at hj1
          omega
  · rw [Except.ok.injEq] at h
    rw [← h]
    exact ⟨le_refl _, fun offs _ => rfl⟩

theorem declare_flags_const_spec (fl1 fl2 : IBLOCK) (iN : Nat)
    (isConst : Bool) (h : declare_flags_const fl1 iN isConst = .ok fl2) :
    fl2.icount = fl1.icount ∧
    (∀ offs k, fl1.pBank.getD offs 0 &&& ((1 : Nat) <<< k) ≠ 0 →
      fl2.pBank.getD offs 0 &&& ((1 : Nat) <<< k) ≠ 0) := by
  unfold declare_flags_const at h
  split at h
  · rcases hg : iblock_get fl1 ((iN / 32 : Nat) : Int) with e | cv
    · rw [hg] at h; exact absurd h (by simp)
    · rw [hg] at h
      simp only at h
      obtain ⟨hs1, hs2, hs3, hs4⟩ := iblock_set_ok_spec fl1 _ _ fl2 h
      refine ⟨hs1, ?_⟩
      intro offs k hbit
      rw [hs2]
      by_cases heq : ((iN / 32 : Nat) : Int).toNat = offs
      · rw [← heq] at hbit ⊢
        have hlen : ((iN / 32 : Nat) : Int).toNat < fl1.pBank.length := by
          by_contra hlen
          rw [List.getD_eq_default _ _ (by omega)] at hbit
          simp at hbit
        rw [getD_set_self _ _ _ _ hlen]
        have hcv : cv = fl1.pBank.getD ((iN / 32 : Nat) : Int).toNat 0 := by
          unfold iblock_get at hg
          split at hg
          · exact absurd hg (by simp)
          · rw [Except.ok.injEq] at hg
            exact hg.symm
        rw [and_shl_ne_zero_iff] at hbit ⊢
        rw [Nat.testBit_lor, hcv, hbit]
        simp
      · rw [getD_set_ne _ _ _ _ _ heq]
        exact hbit
  · rw [Except.ok.injEq] at h
    rw [← h]
    exact ⟨rfl, fun offs k hbit => hbit⟩

theorem handleDeclare_ok_shape (st st' : VMState) (name : String)
    (isConst : Bool) (h : handleDeclare st name isConst = .ok st') :
    st.mNsDict.find? (fun p => p.1 = name) = none ∧
    (∃ iN, st'.mNsDict = st.mNsDict ++ [(name, iN)]) ∧
    st'.mNsFlag.icount ≥ st.mNsFlag.icount ∧
    (∀ offs k, offs < st.mNsFlag.icount →
      st.mNsFlag.pBank.getD offs 0 &&& ((1 : Nat) <<< k) ≠ 0 →
      st'.mNsFlag.pBank.getD offs 0 &&& ((1 : Nat) <<< k) ≠ 0) := by
  unfold handleDeclare at h
  simp only [bind, Except.bind, throw, throwThe, MonadExceptOf.throw, pure,
    Except.pure] at h
  split at h
  · exact absurd h (by simp)
  · rcases ht : vm_type st with e | t
    · rw [ht] at h; exact absurd h (by simp)
    · rw [ht] at h
      simp only at h
      split at h
      · exact absurd h (by simp)
      · rcases ha : vblock_append st.mNs with ⟨i, ns1⟩
        rw [ha] at h
        simp only at h
        split at h
        · exact absurd h (by simp)
        · rcases hf1 : declare_flags_fresh st.mNsFlag i.toNat with e | fl1
          · rw [hf1] at h; exact absurd h (by simp)
          · rw [hf1] at h
            simp only at h
            obtain ⟨hf1cnt, hf1get⟩ :=
              declare_flags_fresh_spec st.mNsFlag fl1 i.toNat hf1
            rcases hf2 : declare_flags_const fl1 i.toNat isConst with
              e | fl2
            · rw [hf2] at h; exact absurd h (by simp)
            · rw [hf2] at h
              simp only at h
              obtain ⟨hf2cnt, hf2bits⟩ :=
                declare_flags_const_spec fl1 fl2 i.toNat isConst hf2
              rcases hins : rfdict_insert st.mNsDict name i.toNat with
                _ | d
              · rw [hins] at h; exact absurd h (by simp)
              · rw [hins] at h
                simp only at h
                have hins' : st.mNsDict.find? (fun p => p.1 = name) =
                    none ∧ d = st.mNsDict ++ [(name, i.toNat)] := by
                  unfold rfdict_insert at hins
                  split at hins
                  · exact absurd hins (by simp)
                  · rename_i hns
                    rw [Option.some.injEq] at hins
                    exact ⟨Option.not_isSome_iff_eq_none.mp hns,
                      hins.symm⟩
                rcases hv : vblock_get st.mSt
                    ((vblock_count st.mSt : Int) - 1) with e | v
                · rw [hv] at h; exact absurd h (by simp)
                · rw [hv] at h
                  simp only at h
                  rcases hp : vm_pop { st with
                      mNs := ns1, mNsFlag := fl2, mNsDict := d } with
                    e | st2
                  · rw [hp] at h; exact absurd h (by simp)
                  · rw [hp] at h
                    simp only at h
                    rcases hs : vblock_set st2.mNs i v with e | ns2
                    · rw [hs] at h; exact absurd h (by simp)
                    · rw [hs] at h
                      simp only at h
                      rw [Except.ok.injEq] at h
                      obtain ⟨b, hst2⟩ := vm_pop_ok_shape _ st2 hp
                      subst hst2
                      rw [← h]
                      refine ⟨hins'.1, ⟨i.toNat, by simp [hins'.2]⟩, ?_, ?_⟩
                      · simp only
                        omega
                      · intro offs k hoffs hbit
                        simp only
                        exact hf2bits offs k
                          (by rw [hf1get offs hoffs]; exact hbit)
end Lilac

namespace Lilac

theorem applyOp_preserves_ns (st st' : VMState) (op : VMOp) (name : String)
    (h : applyOp st op = .ok st') :
    (declaredName st name → declaredName st' name) ∧
    (constFlagged st name → constFlagged st' name) := by
  have frame : ∀ (hd : st'.mNsDict = st.mNsDict)
      (hf : st'.mNsFlag = st.mNsFlag),
      (declaredName st name → declaredName st' name) ∧
      (constFlagged st name → constFlagged st' name) := by
    intro hd hf
    unfold declaredName constFlagged
    rw [hd, hf]
    exact ⟨id, id⟩
  cases op with
  | declare nm c =>
    obtain ⟨hfind, ⟨iN, hdict⟩, hicnt, hbits⟩ :=
      handleDeclare_ok_shape st st' nm c h
    constructor
    · intro hd
      unfold declaredName at *
      rw [hdict, List.find?_append]
      rcases hfd : st.mNsDict.find? (fun p => p.1 = name) with _ | p
      · rw [hfd] at hd; simp at hd
      · simp [hfd]
    · rintro ⟨p, hp, hlt, hbit⟩
      refine ⟨p, ?_, by omega, hbits _ _ hlt hbit⟩
      rw [hdict, List.find?_append, hp]
      rfl
  | assign nm =>
    obtain ⟨hd, hf, _, _⟩ := handleAssign_ok_shape st st' nm h
    exact frame hd hf
  | get nm =>
    obtain ⟨b, hst'⟩ := handleGet_ok_shape st st' nm h
    subst hst'
    exact frame rfl rfl
  | beginGroup =>
    obtain ⟨_, gs2, hst', _, _⟩ := handlBeginGroup_ok_shape st st' h
    subst hst'
    exact frame rfl rfl
  | endGroup =>
    obtain ⟨gs, hst'⟩ := handleEndGroup_ok_shape st st' h
    subst hst'
    exact frame rfl rfl
  | pushF f =>
    obtain ⟨_, _, b2, hst', _, _⟩ := vm_push_f_ok_shape st st' f h
    subst hst'
    exact frame rfl rfl
  | pushC col =>
    obtain ⟨_, b2, hst', _, _⟩ := vm_push_c_ok_shape st st' col h
    subst hst'
    exact frame rfl rfl
  | pushS ps =>
    cases ps with
    | none =>
      exfalso
      unfold applyOp vm_push_s at h
      simp only [bind, Except.bind, throw, throwThe, MonadExceptOf.throw,
        pure, Except.pure] at h
      split at h
      · exact absurd h (by simp)
      · exact absurd h (by simp)
    | some s =>
      obtain ⟨_, b2, hst', _, _⟩ := vm_push_s_ok_shape st st' s h
      subst hst'
      exact frame rfl rfl
  | pushN pn =>
    cases pn with
    | none =>
      exfalso
      unfold applyOp vm_push_n at h
      simp only [bind, Except.bind, throw, throwThe, MonadExceptOf.throw,
        pure, Except.pure] at h
      split at h
      · exact absurd h (by simp)
      · exact absurd h (by simp)
    | some n =>
      obtain ⟨_, b2, hst', _, _⟩ := vm_push_n_ok_shape st st' n h
      subst hst'
      exact frame rfl rfl
  | dup =>
    obtain ⟨b, hst'⟩ := vm_dup_ok_shape st st' h
    subst hst'
    exact frame rfl rfl
  | pop =>
    obtain ⟨b, hst'⟩ := vm_pop_ok_shape st st' h
    subst hst'
    exact frame rfl rfl

theorem runOps_preserves_ns (ops : List VMOp) (st st' : VMState)
    (name : String) (h : runOps st ops = .ok st') :
    (declaredName st name → declaredName st' name) ∧
    (constFlagged st name → constFlagged st' name) := by
  induction ops generalizing st with
  | nil =>
    unfold runOps at h
    rw [show (pure st : Except Err VMState) = .ok st from rfl,
      Except.ok.injEq] at h
    subst h
    exact ⟨id, id⟩
  | cons op rest ih =>
    unfold runOps at h
    simp only [bind, Except.bind] at h
    rcases ha : applyOp st op with e | st1
    · rw [ha] at h; exact absurd h (by simp)
    · rw [ha] at h
      simp only at h
      have h1 := applyOp_preserves_ns st st1 op name ha
      have h2 := ih st1 h
      exact ⟨fun hd => h2.1 (h1.1 hd), fun hc => h2.2 (h1.2 hc)⟩

/-- C6: namespace immutability.  Once a name is declared (with either
flag), a later declare of the same name — after any sequence of
interpreter steps — fails; once a name is declared with the constant
flag, every later assign to it fails; and an assign to a name that was
never declared fails. -/
theorem namespace_immutability (st : VMState) (name : String) :
    (declaredName st name → ∀ ops st' isConst st'',
      runOps st ops = .ok st' →
      handleDeclare st' name isConst ≠ .ok st'') ∧
    (constFlagged st name → ∀ ops st' st'',
      runOps st ops = .ok st' → handleAssign st' name ≠ .ok st'') ∧
    (¬ declaredName st name → ∀ st', handleAssign st name ≠ .ok st') := by
  refine ⟨?_, ?_, ?_⟩
  · intro hd ops st' isConst st'' hrun h
    have hd' : declaredName st' name :=
      (runOps_preserves_ns ops st st' name hrun).1 hd
    obtain ⟨hfind, _, _, _⟩ := handleDeclare_ok_shape st' st'' name isConst h
    unfold declaredName at hd'
    rw [hfind] at hd'
    simp at hd'
  · intro hc ops st' st'' hrun h
    have hc' : constFlagged st' name :=
      (runOps_preserves_ns ops st st' name hrun).2 hc
    obtain ⟨_, _, hneg, cv, hget, hclear⟩ :=
      handleAssign_ok_shape st' st'' name h
    obtain ⟨p, hp, hlt, hbit⟩ := hc'
    have hi : rfdict_get st'.mNsDict name (-1) = (p.2 : Int) := by
      unfold rfdict_get
      rw [hp]
    rw [hi] at hget hclear
    rw [show ((p.2 : Int)).toNat = p.2 by omega] at hget hclear
    have hcv : cv = st'.mNsFlag.pBank.getD (p.2 / 32) 0 := by
      unfold iblock_get at hget
      split at hget
      · exact absurd hget (by simp)
      · rw [Except.ok.injEq] at hget
        rw [← hget, Int.toNat_ofNat]
    rw [hcv] at hclear
    exact hbit hclear
  · intro hnd st' h
    obtain ⟨_, _, hneg, _⟩ := handleAssign_ok_shape st st' name h
    unfold declaredName at hnd
    rcases hfd : st.mNsDict.find? (fun p => p.1 = name) with _ | p
    · unfold rfdict_get at hneg
      rw [hfd] at hneg
      simp at hneg
    · rw [hfd] at hnd
      simp at hnd

/-- Witness for C6 at a concrete state: `x` is declared constant at index
0 (flag bit 0 set), so re-declaring `x` and assigning to `x` fail, and
assigning to the undeclared `y` fails. -/
theorem namespace_immutability_witness :
    (∀ st'', handleDeclare
      ⟨true, ⟨[.color 5, .undef], 2, 4, 1⟩, ⟨[0], 1, 1, 0⟩,
        [("x", 0)], ⟨[1], 1, 1, 1⟩, ⟨[.color 9], 1, 4, 1⟩⟩ "x" true ≠
      .ok st'') ∧
    (∀ st'', handleAssign
      ⟨true, ⟨[.color 5, .undef], 2, 4, 1⟩, ⟨[0], 1, 1, 0⟩,
        [("x", 0)], ⟨[1], 1, 1, 1⟩, ⟨[.color 9], 1, 4, 1⟩⟩ "x" ≠
      .ok st'') ∧
    (∀ st', handleAssign
      ⟨true, ⟨[.color 5, .undef], 2, 4, 1⟩, ⟨[0], 1, 1, 0⟩,
        [("x", 0)], ⟨[1], 1, 1, 1⟩, ⟨[.color 9], 1, 4, 1⟩⟩ "y" ≠
      .ok st') := by
  have key := namespace_immutability
    ⟨true, ⟨[.color 5, .undef], 2, 4, 1⟩, ⟨[0], 1, 1, 0⟩,
      [("x", 0)], ⟨[1], 1, 1, 1⟩, ⟨[.color 9], 1, 4, 1⟩⟩
  refine ⟨fun st'' => (key "x").1 (by unfold declaredName; decide) [] _
      true st'' rfl,
    fun st'' => (key "x").2.1 ⟨("x", 0), by decide, by decide, by decide⟩
      [] _ st'' rfl,
    fun st' => (key "y").2.2 (by unfold declaredName; decide) st'⟩

end Lilac
